import Mathlib

/-!
Verification of the duplicate-detection core of a pair-record processing
tool against its implementation (`pairtools_dedup.py` and `lib/dedup.py`).

The development shallowly embeds the Python sources:

* `PRec` is the typed view of one pair record (one row of the pandas
  dataframe read by `pd.read_table`); the implicit pandas row position is
  the `ingest_index` of the spec.
* `dedup_chunk` embeds the chunk classifier (`dedup_chunk` in
  `pairtools_dedup.py`, `_dedup_chunk` in `lib/dedup.py`; the two bodies
  are line-for-line twins up to how the pandas index is restored at the
  end, a difference recorded in the `Marked.lab` field which the first
  caller ignores and the second uses).
* The spatial-index query (`scipy.spatial.cKDTree.query_pairs(r, p)`) is
  embedded by its documented semantics: all index pairs (i, j), i < j,
  whose points lie within distance `r` under the Minkowski `p`-metric
  (p = 1 for method "sum", p = inf for method "max").
* `scipy.sparse.csgraph.connected_components` is embedded by its
  documented semantics: the finest partition of the vertices such that
  both endpoints of every edge lie in a common class (computed here by
  folding a class-merge step over the edge list; soundness and
  completeness w.r.t. the equivalence closure of the edge relation are
  proved below, `buildParts_coherent` and `eqvGen_of_sameBlock`).
* `PD.dedup_by_chunk` / `PD.streaming_dedup` embed the chunked streaming
  driver of `pairtools_dedup.py`; `LD.dedup_stream` / `LD.streaming_dedup`
  embed the one of `lib/dedup.py`; `CY.run` embeds the line-oriented
  driver `streaming_dedup_cython` of `lib/dedup.py`.
-/

set_option maxRecDepth 10000

namespace Pairtools

/-- One pair record: the columns of one input row that the dedup core
reads (`chrom1`, `pos1`, `chrom2`, `pos2`, `strand1`, `strand2`,
`pair_type`, `readID`), plus the values of any extra categorical columns
(`extras`, addressed positionally: the pandas column name is mapped to an
index). -/
structure PRec where
  chrom1 : String
  pos1 : Int
  chrom2 : String
  pos2 : Int
  strand1 : String
  strand2 : String
  pair_type : String
  readID : String
  extras : List String
deriving Repr, DecidableEq, Inhabited

/-- The `--method` option: "sum" selects the L1 metric (p = 1), "max" the
L-infinity metric (p = inf), cf. `if method == "sum": p = 1 else p = np.inf`. -/
inductive Method where
  | sum
  | max
deriving Repr, DecidableEq

/-- Distance between the (pos1, pos2) points of two records under the
selected metric; positions are integers and the distance is an integer
(here a `Nat`, both metrics being absolute-value based). -/
def pairDist (m : Method) (x y : PRec) : Nat :=
  match m with
  | .sum => (x.pos1 - y.pos1).natAbs + (x.pos2 - y.pos2).natAbs
  | .max => Nat.max (x.pos1 - y.pos1).natAbs (x.pos2 - y.pos2).natAbs

/-- The unmapped test of the sources:
`(df["chrom1"] == unmapped_chrom) | (df["chrom2"] == unmapped_chrom)`. -/
def isUnmapped (uc : String) (x : PRec) : Bool :=
  x.chrom1 == uc || x.chrom2 == uc

/-- Value of extra categorical column number `i` of a record
(`df.iloc[row, df.columns.get_loc(col)]` with the column name resolved to
an index). -/
def getExtra (x : PRec) (i : Nat) : String :=
  x.extras.getD i ""

/-- The categorical filter applied to each candidate pair, cf.
`need_to_match = [("chrom1","chrom1"), ("chrom2","chrom2"),
("strand1","strand1"), ("strand2","strand2")] + extra_col_pairs` followed
by `np.all([df.iloc[a0, lc] == df.iloc[a1, rc] for (lc, rc) in
need_to_match], axis=0)`.  For an extra pair (lc, rc) the left column of
the first record is compared with the right column of the second. -/
def catMatch (eps : List (Nat × Nat)) (x y : PRec) : Bool :=
  x.chrom1 == y.chrom1 && x.chrom2 == y.chrom2 &&
    x.strand1 == y.strand1 && x.strand2 == y.strand2 &&
    eps.all (fun pq => getExtra x pq.1 == getExtra y pq.2)

/-- Record number `i` of a list of mapped records (`df_mapped.iloc[i]`). -/
def recAt (mrecs : List PRec) (i : Nat) : PRec :=
  mrecs.getD i default

/-- The retained-edge test: (i, j) is a candidate returned by the spatial
index query (`z.query_pairs(r=r, p=p)` returns exactly the pairs i < j at
metric distance at most r) that survives the categorical filter. -/
def edgeOK (m : Method) (r : Nat) (eps : List (Nat × Nat)) (mrecs : List PRec)
    (i j : Nat) : Bool :=
  decide (i < j) && decide (pairDist m (recAt mrecs i) (recAt mrecs j) ≤ r) &&
    catMatch eps (recAt mrecs i) (recAt mrecs j)

/-- The filtered candidate edge list `(a0, a1)` fed to the sparse
adjacency matrix (`coo_matrix((ones, (a0, a1)), shape=(N, N))`). -/
def chunkEdges (m : Method) (r : Nat) (eps : List (Nat × Nat))
    (mrecs : List PRec) : List (Nat × Nat) :=
  (List.range mrecs.length).flatMap fun i =>
    ((List.range mrecs.length).filter (fun j => edgeOK m r eps mrecs i j)).map
      (fun j => (i, j))

/-- One merge step of the connected-components computation: the classes
touching either endpoint of the edge are fused into one. -/
def mergeBlocks (parts : List (List Nat)) (e : Nat × Nat) : List (List Nat) :=
  (parts.filter (fun b => decide (e.1 ∈ b ∨ e.2 ∈ b))).flatten ::
    parts.filter (fun b => !decide (e.1 ∈ b ∨ e.2 ∈ b))

/-- Embedding of `connected_components(a_mat, directed=False)`: starting
from singleton classes on the vertices `0 .. n-1`, fuse along every edge.
Two vertices end in the same class iff they are connected in the
undirected graph (proved below). -/
def buildParts (n : Nat) (es : List (Nat × Nat)) : List (List Nat) :=
  es.foldl mergeBlocks ((List.range n).map (fun i => [i]))

/-- The class of vertex `k` (the set of mapped rows sharing `k`'s
`clusterid` label). -/
def blockOf (parts : List (List Nat)) (k : Nat) : List Nat :=
  (parts.find? (fun b => decide (k ∈ b))).getD []

/-- Minimum of a list of naturals (0 for the empty list). -/
def listMin : List Nat → Nat
  | [] => 0
  | [x] => x
  | x :: y :: t => Nat.min x (listMin (y :: t))

/-- The arguments of the chunk classifier (`dedup_chunk(df, r, method,
keep_parent_read_id, extra_col_pairs, backend, unmapped_chrom)`; the
`backend` selection between "scipy" and "sklearn" only chooses the
spatial-index library and is not part of the embedding, both being
embedded by the ideal candidate set). -/
structure ChunkCfg where
  method : Method
  r : Nat
  eps : List (Nat × Nat)
  keepParent : Bool
  uc : String
deriving Repr

/-- The rows of the chunk that have an unmapped side, with their original
row positions (`df[unmapped_id]`; the position is the pandas index that
`df.reset_index()` materialised). -/
def unmappedRows (uc : String) (rows : List PRec) : List (Nat × PRec) :=
  rows.enum.filter (fun lr => isUnmapped uc lr.2)

/-- The mapped rows of the chunk with their original row positions
(`df[~unmapped_id]`). -/
def mappedRows (uc : String) (rows : List PRec) : List (Nat × PRec) :=
  rows.enum.filter (fun lr => !isUnmapped uc lr.2)

/-- The mapped records of a chunk in input order (the dataframe the
spatial index is built over). -/
def chunkMapRecs (cfg : ChunkCfg) (rows : List PRec) : List PRec :=
  (mappedRows cfg.uc rows).map (fun lr => lr.2)

/-- The connected components of the filtered candidate graph of a chunk
(the `clusterid` labelling, presented as the partition it induces on the
mapped row positions). -/
def chunkParts (cfg : ChunkCfg) (rows : List PRec) : List (List Nat) :=
  buildParts (chunkMapRecs cfg rows).length
    (chunkEdges cfg.method cfg.r cfg.eps (chunkMapRecs cfg rows))

/-- The duplicate mark of mapped row `k`, cf.
`dups = df["clusterid"].duplicated()`: a row is marked iff an earlier
mapped row carries the same cluster label, i.e. iff its class contains a
smaller position. -/
def chunkDup (cfg : ChunkCfg) (rows : List PRec) (k : Nat) : Bool :=
  (blockOf (chunkParts cfg rows) k).any (fun j => decide (j < k))

/-- The `parent_readID` attached to mapped row `k` when requested, cf.
`df["parent_readID"] = df["clusterid"].map(df[~dups].set_index("clusterid")["readID"])`:
the readID of the one unmarked member of `k`'s class, which is the class
member with the smallest row position. -/
def chunkParent (cfg : ChunkCfg) (rows : List PRec) (k : Nat) : String :=
  (recAt (chunkMapRecs cfg rows) (listMin (blockOf (chunkParts cfg rows) k))).readID

/-- One classified output row: the record, its original row position
(`lab`, the restored pandas index of `_dedup_chunk`; the resetting twin
`dedup_chunk` drops it and its caller trims positionally, never reading
it), the boolean `duplicate` column, and the optional `parent_readID`
column. -/
structure Marked where
  lab : Nat
  row : PRec
  dup : Bool
  parentReadID : Option String
deriving Repr, DecidableEq, Inhabited

/-- Embedding of the chunk classifier `dedup_chunk` of
`pairtools_dedup.py` (equally `_dedup_chunk` of `lib/dedup.py`): split
off the unmapped rows, build the filtered candidate graph over the
mapped rows, label its connected components, mark every mapped row whose
class holds an earlier row as duplicate, attach the class
representative's readID as `parent_readID` when requested (the unmapped
rows get `parent_readID = ""`), and return
`pd.concat([unmapped, mapped])`: all unmapped rows first, then all
mapped rows, each group in input order.  `unmappedMarked` below is the
unmapped part of that output, `mappedMarked` the mapped part, and
`dedup_chunk` their concatenation. -/
def unmappedMarked (cfg : ChunkCfg) (rows : List PRec) : List Marked :=
  (unmappedRows cfg.uc rows).map (fun lr =>
    { lab := lr.1, row := lr.2, dup := false,
      parentReadID := if cfg.keepParent then some "" else none : Marked })

/-- The classified mapped rows (`df_mapped` with its `duplicate` and
optional `parent_readID` columns). -/
def mappedMarked (cfg : ChunkCfg) (rows : List PRec) : List Marked :=
  (mappedRows cfg.uc rows).enum.map (fun klr =>
    { lab := klr.2.1, row := klr.2.2, dup := chunkDup cfg rows klr.1,
      parentReadID :=
        if cfg.keepParent then some (chunkParent cfg rows klr.1) else none :
      Marked })

def dedup_chunk (cfg : ChunkCfg) (rows : List PRec) : List Marked :=
  unmappedMarked cfg rows ++ mappedMarked cfg rows

/-- The records a chunk contributes to the unique sink: mapped and not
marked duplicate (`chunk[mapped & (~duplicates)]`), in row order, with
the helper columns dropped. -/
def chunkUniques (cfg : ChunkCfg) (rows : List PRec) : List PRec :=
  ((dedup_chunk cfg rows).filter
    (fun mr => !isUnmapped cfg.uc mr.row && !mr.dup)).map (fun mr => mr.row)

/-! Partition facts about the connected-components computation. -/

/-- Two vertices lie in a common class of `parts`. -/
def sameIn (parts : List (List Nat)) (i j : Nat) : Prop :=
  ∃ b, b ∈ parts ∧ i ∈ b ∧ j ∈ b

/-- A list of classes is a partition of `0 .. n-1`. -/
structure IsPartn (n : Nat) (parts : List (List Nat)) : Prop where
  cover : ∀ k, k < n → ∃ b, b ∈ parts ∧ k ∈ b
  bounded : ∀ b ∈ parts, ∀ k ∈ b, k < n
  nonnil : ∀ b ∈ parts, b ≠ []
  disj : parts.Pairwise (fun a b => ∀ x, x ∈ a → x ∉ b)

theorem disj_symmetric :
    Symmetric (fun a b : List Nat => ∀ x, x ∈ a → x ∉ b) := by
  intro a b hab x hxb hxa
  exact hab x hxa hxb

theorem IsPartn.eq_of_mem_of_mem {n : Nat} {parts : List (List Nat)}
    (hp : IsPartn n parts) {a b : List Nat} {x : Nat} (ha : a ∈ parts)
    (hb : b ∈ parts) (hxa : x ∈ a) (hxb : x ∈ b) : a = b := by
  by_contra hne
  exact hp.disj.forall disj_symmetric ha hb hne x hxa hxb

theorem isPartn_init (n : Nat) :
    IsPartn n ((List.range n).map (fun i => [i])) := by
  constructor
  · intro k hk
    exact ⟨[k], List.mem_map_of_mem _ (List.mem_range.mpr hk), List.mem_singleton.mpr rfl⟩
  · intro b hb k hk
    rcases List.mem_map.mp hb with ⟨i, hi, rfl⟩
    rcases List.mem_singleton.mp hk with rfl
    exact List.mem_range.mp hi
  · intro b hb
    rcases List.mem_map.mp hb with ⟨i, _, rfl⟩
    simp
  · refine (List.pairwise_map).mpr ?_
    refine List.Pairwise.imp ?_ (List.pairwise_lt_range n)
    intro i j hij x hxi hxj
    rcases List.mem_singleton.mp hxi with rfl
    rcases List.mem_singleton.mp hxj with rfl
    exact absurd rfl (Nat.ne_of_lt hij)

theorem mem_flatten_touched {parts : List (List Nat)} {e : Nat × Nat}
    {b : List Nat} {k : Nat} (hb : b ∈ parts) (hbe : e.1 ∈ b ∨ e.2 ∈ b)
    (hk : k ∈ b) :
    k ∈ (parts.filter (fun c => decide (e.1 ∈ c ∨ e.2 ∈ c))).flatten :=
  List.mem_flatten.mpr ⟨b, List.mem_filter.mpr ⟨hb, decide_eq_true hbe⟩, hk⟩

theorem mem_filter_untouched {parts : List (List Nat)} {e : Nat × Nat}
    {b : List Nat} (hb : b ∈ parts) (h : ¬(e.1 ∈ b ∨ e.2 ∈ b)) :
    b ∈ parts.filter (fun c => !decide (e.1 ∈ c ∨ e.2 ∈ c)) :=
  List.mem_filter.mpr ⟨hb, by simp [h]⟩

theorem untouched_of_mem {parts : List (List Nat)} {e : Nat × Nat}
    {b : List Nat}
    (hb : b ∈ parts.filter (fun c => !decide (e.1 ∈ c ∨ e.2 ∈ c))) :
    b ∈ parts ∧ ¬(e.1 ∈ b ∨ e.2 ∈ b) := by
  rcases List.mem_filter.mp hb with ⟨h1, h2⟩
  refine ⟨h1, ?_⟩
  simpa using h2

theorem touched_of_mem {parts : List (List Nat)} {e : Nat × Nat}
    {b : List Nat}
    (hb : b ∈ parts.filter (fun c => decide (e.1 ∈ c ∨ e.2 ∈ c))) :
    b ∈ parts ∧ (e.1 ∈ b ∨ e.2 ∈ b) := by
  rcases List.mem_filter.mp hb with ⟨h1, h2⟩
  exact ⟨h1, of_decide_eq_true h2⟩

theorem mergeBlocks_isPartn {n : Nat} {parts : List (List Nat)}
    {e : Nat × Nat} (hp : IsPartn n parts) (he1 : e.1 < n) :
    IsPartn n (mergeBlocks parts e) := by
  rcases hp.cover e.1 he1 with ⟨b1, hb1, hmem1⟩
  constructor
  · intro k hk
    rcases hp.cover k hk with ⟨b, hb, hkb⟩
    by_cases htouch : e.1 ∈ b ∨ e.2 ∈ b
    · exact ⟨_, List.mem_cons_self _ _, mem_flatten_touched hb htouch hkb⟩
    · exact ⟨b, List.mem_cons_of_mem _ (mem_filter_untouched hb htouch), hkb⟩
  · intro b hb k hk
    rcases List.mem_cons.mp hb with rfl | hb
    · rcases List.mem_flatten.mp hk with ⟨c, hc, hkc⟩
      exact hp.bounded c (touched_of_mem hc).1 k hkc
    · exact hp.bounded b (untouched_of_mem hb).1 k hk
  · intro b hb
    rcases List.mem_cons.mp hb with rfl | hb
    · exact List.ne_nil_of_mem (mem_flatten_touched hb1 (Or.inl hmem1) hmem1)
    · exact hp.nonnil b (untouched_of_mem hb).1
  · constructor
    · intro b hb x hxflat hxb
      rcases List.mem_flatten.mp hxflat with ⟨c, hc, hxc⟩
      rcases touched_of_mem hc with ⟨hcp, hctouch⟩
      rcases untouched_of_mem hb with ⟨hbp, hbtouch⟩
      exact hbtouch (hp.eq_of_mem_of_mem hcp hbp hxc hxb ▸ hctouch)
    · exact List.Pairwise.sublist (List.filter_sublist parts) hp.disj

theorem mergeBlocks_mono {parts : List (List Nat)} {e : Nat × Nat}
    {i j : Nat} (h : sameIn parts i j) : sameIn (mergeBlocks parts e) i j := by
  rcases h with ⟨b, hb, hib, hjb⟩
  by_cases htouch : e.1 ∈ b ∨ e.2 ∈ b
  · exact ⟨_, List.mem_cons_self _ _,
      mem_flatten_touched hb htouch hib, mem_flatten_touched hb htouch hjb⟩
  · exact ⟨b, List.mem_cons_of_mem _ (mem_filter_untouched hb htouch), hib, hjb⟩

theorem mergeBlocks_fuses {n : Nat} {parts : List (List Nat)} {e : Nat × Nat}
    (hp : IsPartn n parts) (he1 : e.1 < n) (he2 : e.2 < n) :
    sameIn (mergeBlocks parts e) e.1 e.2 := by
  rcases hp.cover e.1 he1 with ⟨b1, hb1, hm1⟩
  rcases hp.cover e.2 he2 with ⟨b2, hb2, hm2⟩
  exact ⟨_, List.mem_cons_self _ _,
    mem_flatten_touched hb1 (Or.inl hm1) hm1,
    mem_flatten_touched hb2 (Or.inr hm2) hm2⟩

theorem foldl_mergeBlocks_isPartn {n : Nat} (es : List (Nat × Nat)) :
    ∀ parts, IsPartn n parts → (∀ e ∈ es, e.1 < n) →
      IsPartn n (es.foldl mergeBlocks parts) := by
  induction es with
  | nil => intro parts hp _; exact hp
  | cons e t ih =>
      intro parts hp hes
      exact ih _ (mergeBlocks_isPartn hp (hes e (List.mem_cons_self _ _)))
        (fun f hf => hes f (List.mem_cons_of_mem _ hf))

theorem foldl_mergeBlocks_mono {i j : Nat} (es : List (Nat × Nat)) :
    ∀ parts, sameIn parts i j → sameIn (es.foldl mergeBlocks parts) i j := by
  induction es with
  | nil => intro parts h; exact h
  | cons e t ih => intro parts h; exact ih _ (mergeBlocks_mono h)

theorem foldl_mergeBlocks_edge {n : Nat} (es : List (Nat × Nat)) :
    ∀ parts, IsPartn n parts → (∀ e ∈ es, e.1 < n ∧ e.2 < n) →
      ∀ e ∈ es, sameIn (es.foldl mergeBlocks parts) e.1 e.2 := by
  induction es with
  | nil => intro parts _ _ e he; cases he
  | cons f t ih =>
      intro parts hp hes e he
      rcases List.mem_cons.mp he with rfl | he
      · refine foldl_mergeBlocks_mono t _ ?_
        exact mergeBlocks_fuses hp (hes e (List.mem_cons_self _ _)).1
          (hes e (List.mem_cons_self _ _)).2
      · exact ih _ (mergeBlocks_isPartn hp (hes f (List.mem_cons_self _ _)).1)
          (fun g hg => hes g (List.mem_cons_of_mem _ hg)) e he

theorem buildParts_isPartn {n : Nat} {es : List (Nat × Nat)}
    (hes : ∀ e ∈ es, e.1 < n) : IsPartn n (buildParts n es) :=
  foldl_mergeBlocks_isPartn es _ (isPartn_init n) hes

theorem buildParts_edge_same {n : Nat} {es : List (Nat × Nat)}
    (hes : ∀ e ∈ es, e.1 < n ∧ e.2 < n) :
    ∀ e ∈ es, sameIn (buildParts n es) e.1 e.2 :=
  foldl_mergeBlocks_edge es _ (isPartn_init n) hes

/-- Every class produced by the merge fold is coherent for any
equivalence-like relation that holds across each edge: soundness of the
connected-components labelling. -/
theorem buildParts_coherent {n : Nat} {es : List (Nat × Nat)}
    (E : Nat → Nat → Prop) (hr : ∀ k, E k k) (hs : ∀ i j, E i j → E j i)
    (ht : ∀ i j k, E i j → E j k → E i k) (hes : ∀ e ∈ es, E e.1 e.2) :
    ∀ b ∈ buildParts n es, ∀ u ∈ b, ∀ v ∈ b, E u v := by
  suffices h : ∀ (l : List (Nat × Nat)) parts, (∀ e ∈ l, E e.1 e.2) →
      (∀ b ∈ parts, ∀ u ∈ b, ∀ v ∈ b, E u v) →
      ∀ b ∈ l.foldl mergeBlocks parts, ∀ u ∈ b, ∀ v ∈ b, E u v by
    refine h es _ hes ?_
    intro b hb u hu v hv
    rcases List.mem_map.mp hb with ⟨i, _, rfl⟩
    have hui : u = i := List.mem_singleton.mp hu
    have hvi : v = i := List.mem_singleton.mp hv
    rw [hui, hvi]
    exact hr i
  intro l
  induction l with
  | nil => intro parts _ hcoh; exact hcoh
  | cons e t ih =>
      intro parts hl hcoh
      refine ih _ (fun f hf => hl f (List.mem_cons_of_mem _ hf)) ?_
      have heE : E e.1 e.2 := hl e (List.mem_cons_self _ _)
      have bridge : ∀ c ∈ parts.filter (fun b => decide (e.1 ∈ b ∨ e.2 ∈ b)),
          ∀ u ∈ c, E u e.1 := by
        intro c hc u hu
        rcases touched_of_mem hc with ⟨hcp, hctouch⟩
        rcases hctouch with h1 | h2
        · exact hcoh c hcp u hu e.1 h1
        · exact ht _ _ _ (hcoh c hcp u hu e.2 h2) (hs _ _ heE)
      intro b hb u hu v hv
      rcases List.mem_cons.mp hb with rfl | hb
      · rcases List.mem_flatten.mp hu with ⟨c1, hc1, hu1⟩
        rcases List.mem_flatten.mp hv with ⟨c2, hc2, hv2⟩
        exact ht _ _ _ (bridge c1 hc1 u hu1) (hs _ _ (bridge c2 hc2 v hv2))
      · exact hcoh b (untouched_of_mem hb).1 u hu v hv

/-- Completeness of the merge fold: two same-class vertices are related by
the equivalence closure of the edge relation (they really are connected in
the graph). -/
theorem eqvGen_of_sameBlock {n : Nat} {es : List (Nat × Nat)}
    {b : List Nat} (hb : b ∈ buildParts n es) {u v : Nat} (hu : u ∈ b)
    (hv : v ∈ b) : Relation.EqvGen (fun i j => (i, j) ∈ es) u v :=
  buildParts_coherent (Relation.EqvGen (fun i j => (i, j) ∈ es))
    (fun k => Relation.EqvGen.refl k) (fun _ _ h => h.symm _ _)
    (fun _ _ _ h1 h2 => h1.trans _ _ _ h2)
    (fun _ he => Relation.EqvGen.rel _ _ he) b hb u hu v hv

theorem sameIn_symm {parts : List (List Nat)} {i j : Nat}
    (h : sameIn parts i j) : sameIn parts j i := by
  rcases h with ⟨b, hb, hib, hjb⟩
  exact ⟨b, hb, hjb, hib⟩

theorem sameIn_trans {n : Nat} {parts : List (List Nat)} {i j k : Nat}
    (hp : IsPartn n parts) (h1 : sameIn parts i j) (h2 : sameIn parts j k) :
    sameIn parts i k := by
  rcases h1 with ⟨b1, hb1, hib, hjb1⟩
  rcases h2 with ⟨b2, hb2, hjb2, hkb⟩
  have heq : b1 = b2 := hp.eq_of_mem_of_mem hb1 hb2 hjb1 hjb2
  exact ⟨b1, hb1, hib, heq ▸ hkb⟩

theorem sameIn_mem_lt {n : Nat} {parts : List (List Nat)} {i j : Nat}
    (hp : IsPartn n parts) (h : sameIn parts i j) : i < n ∧ j < n := by
  rcases h with ⟨b, hb, hib, hjb⟩
  exact ⟨hp.bounded b hb i hib, hp.bounded b hb j hjb⟩

/-- Connected vertices end up in a common class: completeness of the
connected-components labelling. -/
theorem sameIn_of_eqvGen {n : Nat} {es : List (Nat × Nat)}
    (hes : ∀ e ∈ es, e.1 < n ∧ e.2 < n) {u v : Nat}
    (h : Relation.EqvGen (fun i j => (i, j) ∈ es) u v) (hun : u < n) :
    sameIn (buildParts n es) u v := by
  have hp : IsPartn n (buildParts n es) :=
    buildParts_isPartn (fun e he => (hes e he).1)
  have main : ∀ i j, Relation.EqvGen (fun i j => (i, j) ∈ es) i j →
      (i < n ∨ j < n) → sameIn (buildParts n es) i j := by
    intro i j hij
    induction hij with
    | rel a b hab => exact fun _ => buildParts_edge_same hes _ hab
    | refl a =>
        intro han
        have han : a < n := by
          rcases han with h | h
          · exact h
          · exact h
        rcases hp.cover a han with ⟨b, hb, hab⟩
        exact ⟨b, hb, hab, hab⟩
    | symm a b hab ih =>
        intro hn
        exact sameIn_symm (ih (Or.symm hn))
    | trans a b c hab hbc ih1 ih2 =>
        intro hn
        rcases hn with han | hcn
        · have h1 : sameIn (buildParts n es) a b := ih1 (Or.inl han)
          have hbn : b < n := (sameIn_mem_lt hp h1).2
          exact sameIn_trans hp h1 (ih2 (Or.inl hbn))
        · have h2 : sameIn (buildParts n es) b c := ih2 (Or.inr hcn)
          have hbn : b < n := (sameIn_mem_lt hp h2).1
          exact sameIn_trans hp (ih1 (Or.inr hbn)) h2
  exact main u v h (Or.inl hun)

theorem blockOf_eq {n : Nat} {parts : List (List Nat)} {b : List Nat}
    {k : Nat} (hp : IsPartn n parts) (hb : b ∈ parts) (hk : k ∈ b) :
    blockOf parts k = b := by
  cases hfind : parts.find? (fun c => decide (k ∈ c)) with
  | none =>
      exact absurd (decide_eq_true hk) (List.find?_eq_none.mp hfind b hb)
  | some c =>
      have hcp : c ∈ parts := List.mem_of_find?_eq_some hfind
      have hkc : k ∈ c := by
        have h2 := List.find?_some hfind
        simpa using h2
      have : blockOf parts k = c := by simp [blockOf, hfind]
      rw [this]
      exact hp.eq_of_mem_of_mem hcp hb hkc hk

theorem listMin_mem : ∀ {b : List Nat}, b ≠ [] → listMin b ∈ b
  | [], h => absurd rfl h
  | [x], _ => by simp [listMin]
  | x :: y :: t, _ => by
      by_cases h : x ≤ listMin (y :: t)
      · have : listMin (x :: y :: t) = x := by
          simp [listMin, Nat.min_def, h]
        rw [this]
        exact List.mem_cons_self _ _
      · have hmin : listMin (x :: y :: t) = listMin (y :: t) := by
          simp [listMin, Nat.min_def, h]
        rw [hmin]
        exact List.mem_cons_of_mem _ (listMin_mem (by simp))

theorem listMin_le : ∀ {b : List Nat} {j : Nat}, j ∈ b → listMin b ≤ j
  | [], _, h => absurd h (List.not_mem_nil _)
  | [x], j, h => by
      rcases List.mem_singleton.mp h with rfl
      simp [listMin]
  | x :: y :: t, j, h => by
      rcases List.mem_cons.mp h with rfl | h2
      · exact Nat.le_trans (Nat.min_le_left _ _) (Nat.le_refl _)
      · exact Nat.le_trans (Nat.min_le_right _ _) (listMin_le h2)

/-! Facts about the chunk classifier. -/

/-- Characterisation of the filtered candidate graph: (i, j) is an edge
iff i < j, both are mapped-row positions, the positional distance is
within the radius, and the categorical columns match. -/
theorem mem_chunkEdges_iff {m : Method} {r : Nat} {eps : List (Nat × Nat)}
    {mrecs : List PRec} {i j : Nat} :
    (i, j) ∈ chunkEdges m r eps mrecs ↔
      i < j ∧ j < mrecs.length ∧
        pairDist m (recAt mrecs i) (recAt mrecs j) ≤ r ∧
        catMatch eps (recAt mrecs i) (recAt mrecs j) = true := by
  constructor
  · intro h
    rcases List.mem_flatMap.mp h with ⟨a, ha, hmem⟩
    rcases List.mem_map.mp hmem with ⟨b, hb, heq⟩
    rcases List.mem_filter.mp hb with ⟨hbr, hok⟩
    cases heq
    have hok2 := hok
    simp only [edgeOK, Bool.and_eq_true, decide_eq_true_eq] at hok2
    exact ⟨hok2.1.1, List.mem_range.mp hbr, hok2.1.2, hok2.2⟩
  · rintro ⟨h1, h2, h3, h4⟩
    refine List.mem_flatMap.mpr ⟨i, List.mem_range.mpr (Nat.lt_trans h1 h2), ?_⟩
    refine List.mem_map.mpr ⟨j, List.mem_filter.mpr ⟨List.mem_range.mpr h2, ?_⟩, rfl⟩
    simp [edgeOK, h1, h3, h4]

theorem chunkEdges_endpoints {m : Method} {r : Nat} {eps : List (Nat × Nat)}
    {mrecs : List PRec} :
    ∀ e ∈ chunkEdges m r eps mrecs, e.1 < mrecs.length ∧ e.2 < mrecs.length := by
  rintro ⟨i, j⟩ he
  rcases mem_chunkEdges_iff.mp he with ⟨h1, h2, _⟩
  exact ⟨Nat.lt_trans h1 h2, h2⟩

theorem chunkParts_isPartn (cfg : ChunkCfg) (rows : List PRec) :
    IsPartn (chunkMapRecs cfg rows).length (chunkParts cfg rows) :=
  buildParts_isPartn (fun e he => (chunkEdges_endpoints e he).1)

/-- A mapped row is unmarked iff it is the least position of its class. -/
theorem chunkDup_eq_false_iff {cfg : ChunkCfg} {rows : List PRec}
    {B : List Nat} {k : Nat} (hB : B ∈ chunkParts cfg rows) (hk : k ∈ B) :
    chunkDup cfg rows k = false ↔ ∀ j ∈ B, k ≤ j := by
  unfold chunkDup
  rw [blockOf_eq (chunkParts_isPartn cfg rows) hB hk]
  rw [List.any_eq_false]
  constructor
  · intro h j hj
    have := h j hj
    simpa [Nat.not_lt] using this
  · intro h j hj
    simp [Nat.not_lt]
    exact h j hj

/-- A mapped row is marked iff its class holds an earlier position. -/
theorem chunkDup_eq_true_iff {cfg : ChunkCfg} {rows : List PRec}
    {B : List Nat} {k : Nat} (hB : B ∈ chunkParts cfg rows) (hk : k ∈ B) :
    chunkDup cfg rows k = true ↔ ∃ j ∈ B, j < k := by
  unfold chunkDup
  rw [blockOf_eq (chunkParts_isPartn cfg rows) hB hk]
  simp

/-- Chrom and strand columns are constant on every class (they are equal
across every edge and equality is transitive). -/
theorem chunkParts_cat {cfg : ChunkCfg} {rows : List PRec} {B : List Nat}
    (hB : B ∈ chunkParts cfg rows) {u v : Nat} (hu : u ∈ B) (hv : v ∈ B) :
    (recAt (chunkMapRecs cfg rows) u).chrom1
        = (recAt (chunkMapRecs cfg rows) v).chrom1 ∧
      (recAt (chunkMapRecs cfg rows) u).chrom2
        = (recAt (chunkMapRecs cfg rows) v).chrom2 ∧
      (recAt (chunkMapRecs cfg rows) u).strand1
        = (recAt (chunkMapRecs cfg rows) v).strand1 ∧
      (recAt (chunkMapRecs cfg rows) u).strand2
        = (recAt (chunkMapRecs cfg rows) v).strand2 := by
  refine buildParts_coherent
    (fun a b =>
      (recAt (chunkMapRecs cfg rows) a).chrom1
          = (recAt (chunkMapRecs cfg rows) b).chrom1 ∧
        (recAt (chunkMapRecs cfg rows) a).chrom2
          = (recAt (chunkMapRecs cfg rows) b).chrom2 ∧
        (recAt (chunkMapRecs cfg rows) a).strand1
          = (recAt (chunkMapRecs cfg rows) b).strand1 ∧
        (recAt (chunkMapRecs cfg rows) a).strand2
          = (recAt (chunkMapRecs cfg rows) b).strand2)
    (fun k => ⟨rfl, rfl, rfl, rfl⟩)
    (fun a b h => ⟨h.1.symm, h.2.1.symm, h.2.2.1.symm, h.2.2.2.symm⟩)
    (fun a b c h1 h2 => ⟨h1.1.trans h2.1, h1.2.1.trans h2.2.1,
      h1.2.2.1.trans h2.2.2.1, h1.2.2.2.trans h2.2.2.2⟩)
    ?_ B hB u hu v hv
  rintro ⟨a, b⟩ he
  rcases mem_chunkEdges_iff.mp he with ⟨_, _, _, hcat⟩
  simp only [catMatch, Bool.and_eq_true, beq_iff_eq] at hcat
  exact ⟨hcat.1.1.1.1, hcat.1.1.1.2, hcat.1.1.2, hcat.1.2⟩

/-- The original row position (pandas index / ingest index) of mapped-row
position `k` of a chunk. -/
def chunkLab (cfg : ChunkCfg) (rows : List PRec) (k : Nat) : Nat :=
  ((mappedRows cfg.uc rows).getD k (0, default)).1

theorem mappedRows_pairwise_fst (uc : String) (rows : List PRec) :
    (mappedRows uc rows).Pairwise (fun a b => a.1 < b.1) := by
  have h2 : List.Pairwise (fun a b => a < b) (rows.enum.map Prod.fst) := by
    rw [List.enum_eq_enumFrom, List.enumFrom_map_fst]
    have := List.pairwise_lt_range' 0 rows.length 1
    simpa using this
  have h1 : rows.enum.Pairwise (fun a b => a.1 < b.1) := (List.pairwise_map).mp h2
  exact List.Pairwise.sublist (List.filter_sublist _) h1

/-- Mapped-row positions order-embed into the original row positions. -/
theorem chunkLab_lt {cfg : ChunkCfg} {rows : List PRec} {i j : Nat}
    (hij : i < j) (hj : j < (mappedRows cfg.uc rows).length) :
    chunkLab cfg rows i < chunkLab cfg rows j := by
  have hp := mappedRows_pairwise_fst cfg.uc rows
  rw [List.pairwise_iff_get] at hp
  have hi : i < (mappedRows cfg.uc rows).length := Nat.lt_trans hij hj
  have := hp ⟨i, hi⟩ ⟨j, hj⟩ hij
  unfold chunkLab
  rw [List.getD_eq_getElem _ _ hi, List.getD_eq_getElem _ _ hj]
  simpa [List.get_eq_getElem] using this

/-- The `Marked` entry that mapped-row position `k` contributes to the
classifier output. -/
theorem mapped_entry_mem_dedup_chunk {cfg : ChunkCfg} {rows : List PRec}
    {k : Nat} (hk : k < (mappedRows cfg.uc rows).length) :
    (⟨chunkLab cfg rows k, recAt (chunkMapRecs cfg rows) k,
      chunkDup cfg rows k,
      if cfg.keepParent then some (chunkParent cfg rows k) else none⟩ :
     Marked) ∈ dedup_chunk cfg rows := by
  unfold dedup_chunk mappedMarked
  refine List.mem_append_right _ ?_
  have hk2 : k < (mappedRows cfg.uc rows).enum.length := by
    simpa [List.enum_length] using hk
  refine List.mem_map.mpr
    ⟨(mappedRows cfg.uc rows).enum.get ⟨k, hk2⟩, List.get_mem _ _ _, ?_⟩
  have henum : (mappedRows cfg.uc rows).enum.get ⟨k, hk2⟩
      = (k, (mappedRows cfg.uc rows)[k]) := by
    simp [List.get_eq_getElem, List.getElem_enum]
  rw [henum]
  have h1 : (mappedRows cfg.uc rows)[k].1 = chunkLab cfg rows k := by
    unfold chunkLab
    rw [List.getD_eq_getElem _ _ hk]
  have h2 : (mappedRows cfg.uc rows)[k].2 = recAt (chunkMapRecs cfg rows) k := by
    unfold recAt chunkMapRecs
    rw [List.getD_eq_getElem _ _ (by simpa using hk), List.getElem_map]
  simp [h1, h2]

theorem length_chunkMapRecs (cfg : ChunkCfg) (rows : List PRec) :
    (chunkMapRecs cfg rows).length = (mappedRows cfg.uc rows).length := by
  simp [chunkMapRecs]

/-- Claim C2: within each connected component of the filtered candidate
graph, the member with the smallest position (equivalently the smallest
ingest index, the order embedding being strict) is the unique member
classified not-duplicate; every other member is classified duplicate, and
a singleton component produces no duplicate. -/
theorem C2_component_representative (cfg : ChunkCfg) (rows : List PRec)
    (B : List Nat) (hB : B ∈ chunkParts cfg rows) :
    listMin B ∈ B ∧
      (∀ k ∈ B, (chunkDup cfg rows k = false ↔ k = listMin B)) ∧
      (∀ k ∈ B, listMin B ≤ k) ∧
      (∀ k ∈ B, k ≠ listMin B →
        chunkLab cfg rows (listMin B) < chunkLab cfg rows k) ∧
      (B.length = 1 → ∀ k ∈ B, chunkDup cfg rows k = false) := by
  have hp := chunkParts_isPartn cfg rows
  have hBne : B ≠ [] := hp.nonnil B hB
  have hmin : listMin B ∈ B := listMin_mem hBne
  have hminLe : ∀ j ∈ B, listMin B ≤ j := fun j hj => listMin_le hj
  have hminNodup : chunkDup cfg rows (listMin B) = false :=
    (chunkDup_eq_false_iff hB hmin).mpr hminLe
  refine ⟨hmin, ?_, hminLe, ?_, ?_⟩
  · intro k hk
    constructor
    · intro hnd
      have hle : ∀ j ∈ B, k ≤ j := (chunkDup_eq_false_iff hB hk).mp hnd
      exact Nat.le_antisymm (hle _ hmin) (listMin_le hk)
    · intro heq
      rw [heq]
      exact hminNodup
  · intro k hk hne
    have hlt : listMin B < k := Nat.lt_of_le_of_ne (listMin_le hk)
      (fun h => hne h.symm)
    have hkM : k < (mappedRows cfg.uc rows).length := by
      have := hp.bounded B hB k hk
      rwa [length_chunkMapRecs] at this
    exact chunkLab_lt hlt hkM
  · intro hlen k hk
    rcases List.length_eq_one.mp hlen with ⟨a, rfl⟩
    rcases List.mem_singleton.mp hk with rfl
    rcases List.mem_singleton.mp hmin with hm
    rw [← hm]
    exact hminNodup

/-- Witness for C2 on a concrete two-record chunk forming one component. -/
def c2cfg : ChunkCfg := ⟨Method.max, 3, [], false, "!"⟩

def c2rows : List PRec :=
  [⟨"chr1", 100, "chr2", 200, "+", "+", "UU", "r1", []⟩,
   ⟨"chr1", 101, "chr2", 200, "+", "+", "UU", "r2", []⟩]

theorem C2_witness :
    [0, 1] ∈ chunkParts c2cfg c2rows ∧
      (listMin [0, 1] ∈ [0, 1] ∧
        (∀ k ∈ [0, 1], (chunkDup c2cfg c2rows k = false ↔ k = listMin [0, 1])) ∧
        (∀ k ∈ [0, 1], listMin [0, 1] ≤ k) ∧
        (∀ k ∈ [0, 1], k ≠ listMin [0, 1] →
          chunkLab c2cfg c2rows (listMin [0, 1]) < chunkLab c2cfg c2rows k) ∧
        (([0, 1] : List Nat).length = 1 →
          ∀ k ∈ [0, 1], chunkDup c2cfg c2rows k = false)) :=
  ⟨by decide, C2_component_representative c2cfg c2rows [0, 1] (by decide)⟩

/-- Claim C3: two mapped records are linked by a retained edge iff i < j,
their metric distance (sum of the coordinate distances for "sum", maximum
for "max") is at most r, and their categorical columns (chrom1, chrom2,
strand1, strand2 and every configured extra column pair) agree. -/
theorem C3_edge_characterisation (m : Method) (r : Nat)
    (eps : List (Nat × Nat)) (mrecs : List PRec) (i j : Nat) :
    (i, j) ∈ chunkEdges m r eps mrecs ↔
      (i < j ∧ j < mrecs.length ∧
        (match m with
         | .sum => ((recAt mrecs i).pos1 - (recAt mrecs j).pos1).natAbs +
             ((recAt mrecs i).pos2 - (recAt mrecs j).pos2).natAbs
         | .max => Nat.max ((recAt mrecs i).pos1 - (recAt mrecs j).pos1).natAbs
             ((recAt mrecs i).pos2 - (recAt mrecs j).pos2).natAbs) ≤ r ∧
        (recAt mrecs i).chrom1 = (recAt mrecs j).chrom1 ∧
        (recAt mrecs i).chrom2 = (recAt mrecs j).chrom2 ∧
        (recAt mrecs i).strand1 = (recAt mrecs j).strand1 ∧
        (recAt mrecs i).strand2 = (recAt mrecs j).strand2 ∧
        (∀ pq ∈ eps, getExtra (recAt mrecs i) pq.1 = getExtra (recAt mrecs j) pq.2)) := by
  rw [mem_chunkEdges_iff]
  have hdist : pairDist m (recAt mrecs i) (recAt mrecs j) =
      (match m with
       | .sum => ((recAt mrecs i).pos1 - (recAt mrecs j).pos1).natAbs +
           ((recAt mrecs i).pos2 - (recAt mrecs j).pos2).natAbs
       | .max => Nat.max ((recAt mrecs i).pos1 - (recAt mrecs j).pos1).natAbs
           ((recAt mrecs i).pos2 - (recAt mrecs j).pos2).natAbs) := by
    cases m <;> rfl
  have hcat : catMatch eps (recAt mrecs i) (recAt mrecs j) = true ↔
      ((recAt mrecs i).chrom1 = (recAt mrecs j).chrom1 ∧
        (recAt mrecs i).chrom2 = (recAt mrecs j).chrom2 ∧
        (recAt mrecs i).strand1 = (recAt mrecs j).strand1 ∧
        (recAt mrecs i).strand2 = (recAt mrecs j).strand2 ∧
        (∀ pq ∈ eps, getExtra (recAt mrecs i) pq.1 = getExtra (recAt mrecs j) pq.2)) := by
    simp only [catMatch, Bool.and_eq_true, beq_iff_eq, List.all_eq_true,
      decide_eq_true_eq]
    tauto
  rw [hdist, hcat]

/-- Counterexample input for claim C4: a mapped record followed by an
unmapped one. -/
def c4cfg : ChunkCfg := ⟨Method.max, 3, [], false, "!"⟩

def c4rows : List PRec :=
  [⟨"chr1", 100, "chr2", 200, "+", "+", "UU", "A", []⟩,
   ⟨"!", 0, "chr2", 0, "+", "+", "NU", "U", []⟩]

/-- Claim C4 is false as stated: the classifier returns the unmapped rows
first, so the output of this two-row chunk is U, A and not the input
order A, U. -/
theorem C4_counterexample :
    (dedup_chunk c4cfg c4rows).map Marked.row ≠ c4rows ∧
      (dedup_chunk c4cfg c4rows).map (fun mr => mr.row.readID) = ["U", "A"] ∧
      c4rows.map (fun x => x.readID) = ["A", "U"] := by
  refine ⟨?_, by decide, by decide⟩
  decide

/-- Amended C4: the classifier returns all unmapped rows first and then
all mapped rows, each group preserving the input order (strictly
increasing original positions); the output is a permutation of the input
rows (nothing is lost), but it is not interleaved by ingest index. -/
theorem C4_amended (cfg : ChunkCfg) (rows : List PRec) :
    (dedup_chunk cfg rows).map (fun mr => (mr.lab, mr.row))
        = unmappedRows cfg.uc rows ++ mappedRows cfg.uc rows ∧
      ((dedup_chunk cfg rows).map Marked.lab).Perm (List.range rows.length) ∧
      ((unmappedRows cfg.uc rows).map Prod.fst).Pairwise (· < ·) ∧
      ((mappedRows cfg.uc rows).map Prod.fst).Pairwise (· < ·) := by
  have hsplit : (dedup_chunk cfg rows).map (fun mr => (mr.lab, mr.row))
      = unmappedRows cfg.uc rows ++ mappedRows cfg.uc rows := by
    unfold dedup_chunk unmappedMarked mappedMarked
    rw [List.map_append, List.map_map, List.map_map]
    congr 1
    · have : ((fun mr : Marked => (mr.lab, mr.row)) ∘ fun lr : Nat × PRec =>
          ({ lab := lr.1, row := lr.2, dup := false,
             parentReadID := if cfg.keepParent then some "" else none } : Marked))
          = fun lr : Nat × PRec => (lr.1, lr.2) := rfl
      rw [this]
      have h2 : (fun lr : Nat × PRec => (lr.1, lr.2))
          = (id : Nat × PRec → Nat × PRec) := rfl
      rw [h2, List.map_id]
    · have : ((fun mr : Marked => (mr.lab, mr.row)) ∘
          fun klr : Nat × (Nat × PRec) =>
          ({ lab := klr.2.1, row := klr.2.2, dup := chunkDup cfg rows klr.1,
             parentReadID := if cfg.keepParent then
               some (chunkParent cfg rows klr.1) else none } : Marked))
          = fun klr : Nat × (Nat × PRec) => klr.2 := rfl
      rw [this]
      rw [List.enum_eq_enumFrom, List.enumFrom_map_snd]
  refine ⟨hsplit, ?_, ?_, ?_⟩
  · have h1 : (dedup_chunk cfg rows).map Marked.lab
        = ((dedup_chunk cfg rows).map (fun mr => (mr.lab, mr.row))).map Prod.fst := by
      rw [List.map_map]
      rfl
    rw [h1, hsplit]
    have hperm : (unmappedRows cfg.uc rows ++ mappedRows cfg.uc rows).Perm
        rows.enum := List.filter_append_perm _ _
    refine (hperm.map Prod.fst).trans ?_
    rw [List.enum_eq_enumFrom, List.enumFrom_map_fst]
    have h3 : List.range' 0 rows.length = List.range rows.length := by
      rw [List.range_eq_range']
    rw [h3]
  · have h1 : rows.enum.Pairwise (fun a b => a.1 < b.1) := by
      refine (List.pairwise_map).mp ?_
      rw [List.enum_eq_enumFrom, List.enumFrom_map_fst]
      have := List.pairwise_lt_range' 0 rows.length 1
      simpa using this
    exact (List.pairwise_map).mpr
      (List.Pairwise.sublist (List.filter_sublist _) h1)
  · exact (List.pairwise_map).mpr (mappedRows_pairwise_fst cfg.uc rows)

/-- Counterexample input for claim C5: the three-record chain r1 - r2 - r3
at pos1 100, 103, 106 (radius 3, max metric): r1 - r2 and r2 - r3 are
within radius, r1 - r3 is not, yet all three form one component. -/
def c5cfg : ChunkCfg := ⟨Method.max, 3, [], true, "!"⟩

def c5rows : List PRec :=
  [⟨"chr1", 100, "chr2", 200, "+", "+", "UU", "r1", []⟩,
   ⟨"chr1", 103, "chr2", 200, "+", "+", "UU", "r2", []⟩,
   ⟨"chr1", 106, "chr2", 200, "+", "+", "UU", "r3", []⟩]

/-- Claim C5 is false as stated: r3 is classified duplicate with
`parent_readID = "r1"`, but the only record classified unique is r1, at
distance 6 > r = 3 from r3 - the parent is connected to the duplicate
only through a chain, not itself within radius. -/
theorem C5_counterexample :
    (dedup_chunk c5cfg c5rows).map
        (fun mr => (mr.row.readID, mr.dup, mr.parentReadID))
      = [("r1", false, some "r1"), ("r2", true, some "r1"),
         ("r3", true, some "r1")] ∧
      pairDist Method.max (c5rows.getD 0 default) (c5rows.getD 2 default) = 6 ∧
      ((dedup_chunk c5cfg c5rows).filter (fun mr => !mr.dup)).all
        (fun mr => !(mr.row.readID == "r1" &&
          decide (pairDist Method.max mr.row (c5rows.getD 2 default) ≤ 3)))
        = true := by
  refine ⟨by decide, by decide, by decide⟩

/-- Amended C5: the `parent_readID` attached to a duplicate D is the
readID of the least-position member P of D's connected component; P is
classified unique, has a strictly smaller position and ingest index, and
agrees with D on chrom1, chrom2, strand1 and strand2, but P is connected
to D through a chain of within-radius matches and need not itself lie
within radius r of D. -/
theorem C5_amended (cfg : ChunkCfg) (rows : List PRec) (k : Nat)
    (hk : k < (mappedRows cfg.uc rows).length)
    (hdup : chunkDup cfg rows k = true) :
    ∃ B, B ∈ chunkParts cfg rows ∧ k ∈ B ∧ listMin B ∈ B ∧ listMin B < k ∧
      chunkDup cfg rows (listMin B) = false ∧
      chunkParent cfg rows k = (recAt (chunkMapRecs cfg rows) (listMin B)).readID ∧
      chunkLab cfg rows (listMin B) < chunkLab cfg rows k ∧
      (recAt (chunkMapRecs cfg rows) (listMin B)).chrom1
        = (recAt (chunkMapRecs cfg rows) k).chrom1 ∧
      (recAt (chunkMapRecs cfg rows) (listMin B)).chrom2
        = (recAt (chunkMapRecs cfg rows) k).chrom2 ∧
      (recAt (chunkMapRecs cfg rows) (listMin B)).strand1
        = (recAt (chunkMapRecs cfg rows) k).strand1 ∧
      (recAt (chunkMapRecs cfg rows) (listMin B)).strand2
        = (recAt (chunkMapRecs cfg rows) k).strand2 ∧
      (⟨chunkLab cfg rows (listMin B), recAt (chunkMapRecs cfg rows) (listMin B),
          chunkDup cfg rows (listMin B),
          if cfg.keepParent then some (chunkParent cfg rows (listMin B)) else none⟩ :
        Marked) ∈ dedup_chunk cfg rows := by
  have hp := chunkParts_isPartn cfg rows
  have hkM : k < (chunkMapRecs cfg rows).length := by
    rwa [length_chunkMapRecs]
  rcases hp.cover k hkM with ⟨B, hB, hkB⟩
  have hbofk : blockOf (chunkParts cfg rows) k = B := blockOf_eq hp hB hkB
  have hmin : listMin B ∈ B := listMin_mem (hp.nonnil B hB)
  have hlt : listMin B < k := by
    rcases (chunkDup_eq_true_iff hB hkB).mp hdup with ⟨j, hj, hjk⟩
    exact Nat.lt_of_le_of_lt (listMin_le hj) hjk
  have hminM : listMin B < (mappedRows cfg.uc rows).length := by
    have := hp.bounded B hB _ hmin
    rwa [length_chunkMapRecs] at this
  have hcat := chunkParts_cat hB hmin hkB
  refine ⟨B, hB, hkB, hmin, hlt,
    (chunkDup_eq_false_iff hB hmin).mpr (fun j hj => listMin_le hj), ?_,
    chunkLab_lt hlt hk, hcat.1, hcat.2.1, hcat.2.2.1, hcat.2.2.2, ?_⟩
  · unfold chunkParent
    rw [hbofk]
  · exact mapped_entry_mem_dedup_chunk hminM

/-- Witness for C5 amended: a two-record duplicate pair with
keep-parent-id on. -/
def c5wrows : List PRec :=
  [⟨"chr1", 100, "chr2", 200, "+", "+", "UU", "a", []⟩,
   ⟨"chr1", 101, "chr2", 200, "+", "+", "UU", "b", []⟩]

theorem C5_amended_witness :
    (1 < (mappedRows c5cfg.uc c5wrows).length ∧
      chunkDup c5cfg c5wrows 1 = true) ∧
      (∃ B, B ∈ chunkParts c5cfg c5wrows ∧ 1 ∈ B ∧ listMin B ∈ B ∧
        listMin B < 1 ∧
        chunkDup c5cfg c5wrows (listMin B) = false ∧
        chunkParent c5cfg c5wrows 1
          = (recAt (chunkMapRecs c5cfg c5wrows) (listMin B)).readID ∧
        chunkLab c5cfg c5wrows (listMin B) < chunkLab c5cfg c5wrows 1 ∧
        (recAt (chunkMapRecs c5cfg c5wrows) (listMin B)).chrom1
          = (recAt (chunkMapRecs c5cfg c5wrows) 1).chrom1 ∧
        (recAt (chunkMapRecs c5cfg c5wrows) (listMin B)).chrom2
          = (recAt (chunkMapRecs c5cfg c5wrows) 1).chrom2 ∧
        (recAt (chunkMapRecs c5cfg c5wrows) (listMin B)).strand1
          = (recAt (chunkMapRecs c5cfg c5wrows) 1).strand1 ∧
        (recAt (chunkMapRecs c5cfg c5wrows) (listMin B)).strand2
          = (recAt (chunkMapRecs c5cfg c5wrows) 1).strand2 ∧
        (⟨chunkLab c5cfg c5wrows (listMin B),
            recAt (chunkMapRecs c5cfg c5wrows) (listMin B),
            chunkDup c5cfg c5wrows (listMin B),
            if c5cfg.keepParent then
              some (chunkParent c5cfg c5wrows (listMin B)) else none⟩ :
          Marked) ∈ dedup_chunk c5cfg c5wrows) :=
  ⟨⟨by decide, by decide⟩, C5_amended c5cfg c5wrows 1 (by decide) (by decide)⟩

/-! The streaming drivers. -/

/-- Rewriting of the pair-type column on a marked duplicate row, cf.
`df_marked.loc[mask_duplicated, "pair_type"] = "DD"` (equally
`marked.iloc[marked["duplicate"], get_loc("pair_type")] = "DD"`). -/
def markDD (mr : Marked) : Marked :=
  if mr.dup then { mr with row := { mr.row with pair_type := "DD" } } else mr

/-- Last `n` rows of a dataframe (`df.tail(n)`, equally `df.iloc[-n:]`):
all rows when `n` exceeds the length. -/
def takeLast {α : Type} (n : Nat) (l : List α) : List α :=
  l.drop (l.length - n)

/-- Chunked reading of the input, cf.
`pd.read_table(in_stream, names=colnames, chunksize=chunksize)`:
successive chunks of `chunksize` rows (none for an empty body, for which
pandas raises `EmptyDataError`; zero chunks makes the downstream loop a
no-op either way). -/
def chunksOfAux {α : Type} (n : Nat) : Nat → List α → List (List α)
  | _, [] => []
  | 0, _ :: _ => []
  | fuel + 1, x :: xs => (x :: xs).take n :: chunksOfAux n fuel ((x :: xs).drop n)

def chunksOf {α : Type} (n : Nat) (l : List α) : List (List α) :=
  if n = 0 then [] else chunksOfAux n l.length l

/-- Contents of the three output sinks; a duplicate row carries its
optional `parent_readID` column (written before that column is dropped
for the unique and unmapped sinks). -/
structure Outs where
  unique : List PRec
  dups : List (PRec × Option String)
  unmapped : List PRec
deriving Repr, DecidableEq

/-- Per-chunk sink writes shared by both dataframe drivers: the dups sink
receives the mapped rows marked duplicate, the unique sink the mapped
rows not marked, the unmapped sink the rest, each in row order
(`mask_mapped`/`mask_duplicates` and the three `to_csv` calls). -/
def addChunkOuts (uc : String) (acc : Outs) (chunk : List Marked) : Outs :=
  { unique := acc.unique ++
      (chunk.filter (fun mr => !isUnmapped uc mr.row && !mr.dup)).map Marked.row,
    dups := acc.dups ++
      (chunk.filter (fun mr => !isUnmapped uc mr.row && mr.dup)).map
        (fun mr => (mr.row, mr.parentReadID)),
    unmapped := acc.unmapped ++
      (chunk.filter (fun mr => isUnmapped uc mr.row)).map Marked.row }

namespace PD

/-- Options of `_dedup_by_chunk` / `streaming_dedup` in
`pairtools_dedup.py`. -/
structure Cfg where
  chunk : ChunkCfg
  chunksize : Nat
  markDups : Bool
deriving Repr

/-- The chunk loop of `_dedup_by_chunk` in `pairtools_dedup.py`: prepend
the remembered non-duplicate tail `oldNodups` to the chunk, classify,
positionally discard the first `old_i` result rows (`marked.iloc[old_i:]`),
rewrite duplicates to "DD" when requested, remember the last
`i = max(len(nodups) // 100, 100)` non-duplicate rows (`nodups.iloc[-i:]`)
and the number `old_i = i` of rows to discard next round, and yield the
trimmed chunk. -/
def dedupByChunkAux (cfg : Cfg) :
    List (List PRec) → List PRec → Nat → List (List Marked)
  | [], _, _ => []
  | df :: rest, oldNodups, oldI =>
      let marked := dedup_chunk cfg.chunk (oldNodups ++ df)
      let trimmed := marked.drop oldI
      let trimmed2 := if cfg.markDups then trimmed.map markDD else trimmed
      let nodups := (trimmed2.filter (fun mr => !mr.dup)).map Marked.row
      let i := Nat.max (nodups.length / 100) 100
      trimmed2 :: dedupByChunkAux cfg rest (takeLast i nodups) i

/-- `_dedup_by_chunk` of `pairtools_dedup.py`. -/
def dedup_by_chunk (cfg : Cfg) (input : List PRec) : List (List Marked) :=
  dedupByChunkAux cfg (chunksOf cfg.chunksize input) [] 0

/-- Python exceptions the driver can raise. -/
inductive PyErr where
  | zeroDivision
deriving Repr, DecidableEq

/-- Result of a driver run: the sink contents, and the exception raised
after the chunk loop, if any. -/
structure RunResult where
  outs : Outs
  err : Option PyErr
deriving Repr, DecidableEq

/-- `streaming_dedup` of `pairtools_dedup.py`: stream the marked chunks
to the three sinks, then print the timing summary, whose expression
`t/N*1e6` raises `ZeroDivisionError` when no record was processed
(`N == 0`); the sink writes all happened before that point. -/
def streaming_dedup (cfg : Cfg) (input : List PRec) : RunResult :=
  let chunks := dedup_by_chunk cfg input
  let outs := chunks.foldl (addChunkOuts cfg.chunk.uc) ⟨[], [], []⟩
  let n := chunks.foldl (fun acc chunk => acc + chunk.length) 0
  { outs := outs, err := if n = 0 then some PyErr.zeroDivision else none }

end PD

/-- Input exhibiting the carryover bookkeeping bug of
`pairtools_dedup.py`: two far-apart mapped records, chunksize 1. -/
def c1cfg : PD.Cfg := ⟨⟨Method.max, 3, [], false, "!"⟩, 1, false⟩

def c1input : List PRec :=
  [⟨"chr1", 100, "chr2", 200, "+", "+", "UU", "A", []⟩,
   ⟨"chr3", 1000000, "chr4", 2000000, "+", "+", "UU", "B", []⟩]

/-- Claim C1 fails on the code: with chunksize 1, the first chunk has one
non-duplicate row, so `old_i = max(1 // 100, 100) = 100` although only
one carryover row is prepended; the second chunk (1 carryover + 1 current
row) is trimmed by 100 rows and record B reaches no sink:
unique + dups + unmapped = 1 + 0 + 0 while the input has 2 records. -/
theorem C1_record_dropped :
    (PD.streaming_dedup c1cfg c1input).err = none ∧
      (PD.streaming_dedup c1cfg c1input).outs.unique.map (fun x => x.readID)
        = ["A"] ∧
      (PD.streaming_dedup c1cfg c1input).outs.dups = [] ∧
      (PD.streaming_dedup c1cfg c1input).outs.unmapped = [] ∧
      ((PD.streaming_dedup c1cfg c1input).outs.unique.length +
          (PD.streaming_dedup c1cfg c1input).outs.dups.length +
          (PD.streaming_dedup c1cfg c1input).outs.unmapped.length = 1) ∧
      c1input.length = 2 := by
  refine ⟨by decide, by decide, by decide, by decide, by decide, by decide⟩

/-- Input exhibiting the prepend/discard mismatch of `_dedup_by_chunk`. -/
def c6cfg : PD.Cfg := ⟨⟨Method.max, 3, [], false, "!"⟩, 1, false⟩

def c6recA : PRec := ⟨"chr1", 100, "chr2", 200, "+", "+", "UU", "A", []⟩

def c6recB : PRec := ⟨"chr3", 500000, "chr4", 600000, "+", "+", "UU", "B", []⟩

/-- Claim C6 fails on the code: after a chunk with one non-duplicate row
the driver prepends `min(C, 1) = 1` carryover row but discards
`C = max(1 // 100, 100) = 100` result rows, so the discarded rows are not
the carryover rows - they swallow the whole next chunk, whose yielded
remainder is empty. -/
theorem C6_carryover_mismatch :
    Nat.max ((1 : Nat) / 100) 100 = 100 ∧
      takeLast 100 [c6recA] = [c6recA] ∧
      ([c6recA] : List PRec).length = 1 ∧
      PD.dedupByChunkAux c6cfg [[c6recB]] [c6recA] 100 = [[]] ∧
      (PD.dedup_by_chunk c6cfg [c6recA, c6recB]).map
          (fun ch => ch.map (fun mr => mr.row.readID))
        = [["A"], []] := by
  refine ⟨by decide, by decide, by decide, by decide, by decide⟩

/-- Configuration with the default chunk size for the empty-input run. -/
def c10cfg : PD.Cfg := ⟨⟨Method.max, 3, [], false, "!"⟩, 3100000, false⟩

/-- Claim C10 fails on `pairtools_dedup.py`: on an empty body the chunk
loop writes nothing and processes N = 0 records, and the closing
`print(f"time per mln pairs: ...")` evaluates `t/N*1e6`, raising
`ZeroDivisionError` (the twin driver in `lib/dedup.py` guards this very
division behind `if N > 0`). -/
theorem C10_empty_input_zero_division :
    PD.streaming_dedup c10cfg []
      = ⟨⟨[], [], []⟩, some PD.PyErr.zeroDivision⟩ := by
  decide

namespace LD

/-- Options of `_dedup_stream` / `streaming_dedup` in `lib/dedup.py`
(this driver takes the carryover row count as an explicit option). -/
structure Cfg where
  chunk : ChunkCfg
  chunksize : Nat
  carryover : Nat
  markDups : Bool
deriving Repr

/-- The chunk loop of `_dedup_stream` in `lib/dedup.py`: prepend the
carryover rows, classify, drop the result rows before the row labelled
`prev_i` (`df_marked.loc[prev_i:]` slices from the position of the label
`prev_i` of the restored index), rewrite duplicates to "DD" when
requested, remember the last `carryover` non-duplicate rows
(`df_nodups.tail(carryover)`) and their number `prev_i`, and yield the
trimmed chunk. -/
def dedupStreamAux (cfg : Cfg) :
    List (List PRec) → List PRec → Nat → List (List Marked)
  | [], _, _ => []
  | df :: rest, prevNodups, prevI =>
      let marked := dedup_chunk cfg.chunk (prevNodups ++ df)
      let trimmed := marked.drop (marked.findIdx (fun mr => mr.lab == prevI))
      let trimmed2 := if cfg.markDups then trimmed.map markDD else trimmed
      let nodups := (trimmed2.filter (fun mr => !mr.dup)).map Marked.row
      let carry := takeLast cfg.carryover nodups
      trimmed2 :: dedupStreamAux cfg rest carry carry.length

/-- `_dedup_stream` of `lib/dedup.py`. -/
def dedup_stream (cfg : Cfg) (input : List PRec) : List (List Marked) :=
  dedupStreamAux cfg (chunksOf cfg.chunksize input) [] 0

/-- `streaming_dedup` of `lib/dedup.py`: stream the marked chunks to the
three sinks (this driver guards its timing summary behind `if N > 0`, so
an empty input raises nothing). -/
def streaming_dedup (cfg : Cfg) (input : List PRec) : Outs :=
  (dedup_stream cfg input).foldl (addChunkOuts cfg.chunk.uc) ⟨[], [], []⟩

end LD

/-- Configuration of the C9 counterexample run: radius 3, max metric,
chunksize 3, carryover 1. -/
def c9cfg : LD.Cfg := ⟨⟨Method.max, 3, [], false, "!"⟩, 3, 1, false⟩

/-- Input for C9, sorted by (chrom1, chrom2, pos1, pos2): d duplicates A;
B duplicates A (distance (3, 3), within radius 3 under max) but n (far
away in pos2) sits between them, so after chunking [A, d, n], [B] the
carryover into the second chunk is [n] and B is classified unique. -/
def c9rows : List PRec :=
  [⟨"chr1", 100, "chr2", 200, "+", "+", "UU", "A", []⟩,
   ⟨"chr1", 101, "chr2", 201, "+", "+", "UU", "d", []⟩,
   ⟨"chr1", 102, "chr2", 1000000, "+", "+", "UU", "n", []⟩,
   ⟨"chr1", 103, "chr2", 203, "+", "+", "UU", "B", []⟩]

/-- Claim C9 is false on the streaming driver: the first run emits
unique = [A, n, B] (B straddles the boundary, its only within-radius
partner A is beyond the carryover) and dups = [d]; rerunning the driver
with the same configuration on that unique output puts A and B into one
chunk, so the second run emits dups = [B] and unique = [A, n]: the unique
output is not a fixed point and the second duplicates stream is not
empty. -/
theorem C9_counterexample :
    (LD.streaming_dedup c9cfg c9rows).unique.map (fun x => x.readID)
        = ["A", "n", "B"] ∧
      (LD.streaming_dedup c9cfg c9rows).dups.map (fun p => p.1.readID)
        = ["d"] ∧
      (LD.streaming_dedup c9cfg c9rows).unmapped = [] ∧
      (LD.streaming_dedup c9cfg
          ((LD.streaming_dedup c9cfg c9rows).unique)).dups.map
          (fun p => p.1.readID) = ["B"] ∧
      (LD.streaming_dedup c9cfg
          ((LD.streaming_dedup c9cfg c9rows).unique)).dups ≠ [] ∧
      (LD.streaming_dedup c9cfg
          ((LD.streaming_dedup c9cfg c9rows).unique)).unique.map
          (fun x => x.readID) = ["A", "n"] ∧
      (LD.streaming_dedup c9cfg
            ((LD.streaming_dedup c9cfg c9rows).unique)).unique
        ≠ (LD.streaming_dedup c9cfg c9rows).unique := by
  refine ⟨by decide, by decide, by decide, by decide, by decide, by decide,
    by decide⟩

/-! Single-chunk idempotence: machinery for the amended C9. -/

theorem recAt_eq_getElem {mrecs : List PRec} {i : Nat} (hi : i < mrecs.length) :
    recAt mrecs i = mrecs[i] := by
  unfold recAt
  rw [List.getD_eq_getElem _ _ hi]

theorem mappedMarked_length (cfg : ChunkCfg) (rows : List PRec) :
    (mappedMarked cfg rows).length = (mappedRows cfg.uc rows).length := by
  simp [mappedMarked]

theorem mappedMarked_getElem {cfg : ChunkCfg} {rows : List PRec} {k : Nat}
    (hk : k < (mappedRows cfg.uc rows).length) :
    getElem (mappedMarked cfg rows) k (by rw [mappedMarked_length]; exact hk)
      = ⟨chunkLab cfg rows k, recAt (chunkMapRecs cfg rows) k,
         chunkDup cfg rows k,
         if cfg.keepParent then some (chunkParent cfg rows k) else none⟩ := by
  unfold mappedMarked
  rw [List.getElem_map, List.getElem_enum]
  have h1 : (mappedRows cfg.uc rows)[k].1 = chunkLab cfg rows k := by
    unfold chunkLab
    rw [List.getD_eq_getElem _ _ hk]
  have h2 : (mappedRows cfg.uc rows)[k].2 = recAt (chunkMapRecs cfg rows) k := by
    unfold recAt chunkMapRecs
    rw [List.getD_eq_getElem _ _ (by simpa using hk), List.getElem_map]
  simp [h1, h2]

theorem mem_unmappedMarked_unm {cfg : ChunkCfg} {rows : List PRec}
    {mr : Marked} (h : mr ∈ unmappedMarked cfg rows) :
    isUnmapped cfg.uc mr.row = true := by
  unfold unmappedMarked at h
  rcases List.mem_map.mp h with ⟨lr, hlr, rfl⟩
  exact (List.mem_filter.mp hlr).2

/-- The unique-sink records of a chunk are exactly the unmarked rows of
the mapped part (the unmapped part never passes the mapped mask). -/
theorem chunkUniques_eq_mapped (cfg : ChunkCfg) (rows : List PRec) :
    chunkUniques cfg rows
      = ((mappedMarked cfg rows).filter
          (fun mr => !isUnmapped cfg.uc mr.row && !mr.dup)).map Marked.row := by
  unfold chunkUniques dedup_chunk
  rw [List.filter_append]
  have hnil : (unmappedMarked cfg rows).filter
      (fun mr => !isUnmapped cfg.uc mr.row && !mr.dup) = [] := by
    rw [List.filter_eq_nil_iff]
    intro mr hmr
    simp [mem_unmappedMarked_unm hmr]
  rw [hnil, List.nil_append]

theorem chunkUniques_mapped (cfg : ChunkCfg) (rows : List PRec) :
    ∀ x ∈ chunkUniques cfg rows, isUnmapped cfg.uc x = false := by
  intro x hx
  rw [chunkUniques_eq_mapped] at hx
  rcases List.mem_map.mp hx with ⟨mr, hmr, rfl⟩
  have h2 := (List.mem_filter.mp hmr).2
  simp only [Bool.and_eq_true, Bool.not_eq_true'] at h2
  exact h2.1

/-- No two unique-sink records of one chunk are within radius with
matching categorical columns: they would have been joined by an edge and
lie in one component, which holds only one unmarked row. -/
theorem chunkUniques_pairwise (cfg : ChunkCfg) (rows : List PRec) :
    (chunkUniques cfg rows).Pairwise (fun x y =>
      ¬(pairDist cfg.method x y ≤ cfg.r ∧ catMatch cfg.eps x y = true)) := by
  rw [chunkUniques_eq_mapped]
  refine (List.pairwise_map).mpr ?_
  have hQ : (mappedMarked cfg rows).Pairwise (fun a b =>
      a.dup = false → b.dup = false →
        ¬(pairDist cfg.method a.row b.row ≤ cfg.r ∧
          catMatch cfg.eps a.row b.row = true)) := by
    rw [List.pairwise_iff_get]
    intro i j hij
    have hiM : (i : Nat) < (mappedRows cfg.uc rows).length :=
      Nat.lt_of_lt_of_eq i.isLt (mappedMarked_length cfg rows)
    have hjM : (j : Nat) < (mappedRows cfg.uc rows).length :=
      Nat.lt_of_lt_of_eq j.isLt (mappedMarked_length cfg rows)
    rw [List.get_eq_getElem, List.get_eq_getElem,
      mappedMarked_getElem hiM, mappedMarked_getElem hjM]
    intro hdi hdj hpred
    have hjM2 : (j : Nat) < (chunkMapRecs cfg rows).length := by
      rwa [length_chunkMapRecs]
    have hedge : ((i : Nat), (j : Nat)) ∈
        chunkEdges cfg.method cfg.r cfg.eps (chunkMapRecs cfg rows) :=
      mem_chunkEdges_iff.mpr ⟨hij, hjM2, hpred.1, hpred.2⟩
    have hsame : sameIn (chunkParts cfg rows) (i : Nat) (j : Nat) :=
      buildParts_edge_same chunkEdges_endpoints _ hedge
    rcases hsame with ⟨b, hb, hib, hjb⟩
    have h1 := (chunkDup_eq_false_iff hb hib).mp hdi
    have h2 := (chunkDup_eq_false_iff hb hjb).mp hdj
    have heq : (i : Nat) = (j : Nat) :=
      Nat.le_antisymm (h1 _ hjb) (h2 _ hib)
    have hlt : (i : Nat) < (j : Nat) := hij
    omega
  have hQf := List.Pairwise.filter
    (fun mr => !isUnmapped cfg.uc mr.row && !mr.dup) hQ
  refine List.Pairwise.imp_of_mem ?_ hQf
  intro a b ha hb hR
  have hda : a.dup = false := by
    have h2 := (List.mem_filter.mp ha).2
    simp only [Bool.and_eq_true, Bool.not_eq_true'] at h2
    exact h2.2
  have hdb : b.dup = false := by
    have h2 := (List.mem_filter.mp hb).2
    simp only [Bool.and_eq_true, Bool.not_eq_true'] at h2
    exact h2.2
  exact hR hda hdb

/-- A chunk whose records are pairwise non-matching has no edges. -/
theorem chunkEdges_eq_nil {m : Method} {r : Nat} {eps : List (Nat × Nat)}
    {mrecs : List PRec}
    (h : mrecs.Pairwise (fun x y =>
      ¬(pairDist m x y ≤ r ∧ catMatch eps x y = true))) :
    chunkEdges m r eps mrecs = [] := by
  rw [List.eq_nil_iff_forall_not_mem]
  rintro ⟨i, j⟩ he
  rcases mem_chunkEdges_iff.mp he with ⟨hij, hj, hdist, hcat⟩
  have hi : i < mrecs.length := Nat.lt_trans hij hj
  rw [List.pairwise_iff_get] at h
  have h2 := h ⟨i, hi⟩ ⟨j, hj⟩ hij
  rw [List.get_eq_getElem, List.get_eq_getElem] at h2
  refine h2 ⟨?_, ?_⟩
  · rwa [recAt_eq_getElem hi, recAt_eq_getElem hj] at hdist
  · rwa [recAt_eq_getElem hi, recAt_eq_getElem hj] at hcat

theorem mappedRows_of_all_mapped {uc : String} {u : List PRec}
    (h : ∀ x ∈ u, isUnmapped uc x = false) : mappedRows uc u = u.enum := by
  unfold mappedRows
  rw [List.filter_eq_self]
  intro a ha
  simp [h a.2 (List.snd_mem_of_mem_enum ha)]

theorem unmappedRows_of_all_mapped {uc : String} {u : List PRec}
    (h : ∀ x ∈ u, isUnmapped uc x = false) : unmappedRows uc u = [] := by
  unfold unmappedRows
  rw [List.filter_eq_nil_iff]
  intro a ha
  simp [h a.2 (List.snd_mem_of_mem_enum ha)]

theorem chunkMapRecs_of_all_mapped {cfg : ChunkCfg} {u : List PRec}
    (h : ∀ x ∈ u, isUnmapped cfg.uc x = false) : chunkMapRecs cfg u = u := by
  unfold chunkMapRecs
  rw [mappedRows_of_all_mapped h]
  show List.map Prod.snd u.enum = u
  rw [List.enum_eq_enumFrom, List.enumFrom_map_snd]

/-- Amended C9: the chunk classifier is idempotent chunk-locally.
Re-running `dedup_chunk` on the unique-sink records of a chunk returns
exactly those records (in order, none marked duplicate) and an empty
duplicate set. -/
theorem C9_amended (cfg : ChunkCfg) (rows : List PRec) :
    chunkUniques cfg (chunkUniques cfg rows) = chunkUniques cfg rows ∧
      (dedup_chunk cfg (chunkUniques cfg rows)).filter (fun mr => mr.dup)
        = [] := by
  have hmapped := chunkUniques_mapped cfg rows
  have hmr : chunkMapRecs cfg (chunkUniques cfg rows) = chunkUniques cfg rows :=
    chunkMapRecs_of_all_mapped hmapped
  have hedges : chunkEdges cfg.method cfg.r cfg.eps
      (chunkMapRecs cfg (chunkUniques cfg rows)) = [] := by
    rw [hmr]
    exact chunkEdges_eq_nil (chunkUniques_pairwise cfg rows)
  have hnodup : ∀ k, k < (mappedRows cfg.uc (chunkUniques cfg rows)).length →
      chunkDup cfg (chunkUniques cfg rows) k = false := by
    intro k hk
    unfold chunkDup chunkParts
    rw [hedges]
    have hkn : k < (chunkMapRecs cfg (chunkUniques cfg rows)).length := by
      rwa [length_chunkMapRecs]
    have hb : blockOf
        (buildParts (chunkMapRecs cfg (chunkUniques cfg rows)).length []) k
        = [k] := by
      refine blockOf_eq (isPartn_init _) ?_ (List.mem_singleton.mpr rfl)
      exact List.mem_map_of_mem _ (List.mem_range.mpr hkn)
    rw [hb]
    simp
  have hunm : unmappedMarked cfg (chunkUniques cfg rows) = [] := by
    unfold unmappedMarked
    rw [unmappedRows_of_all_mapped hmapped]
    rfl
  have hallpass : ∀ mr ∈ mappedMarked cfg (chunkUniques cfg rows),
      (!isUnmapped cfg.uc mr.row && !mr.dup) = true := by
    intro mr hmr2
    unfold mappedMarked at hmr2
    rcases List.mem_map.mp hmr2 with ⟨klr, hklr, rfl⟩
    have h1 : klr.1 < (mappedRows cfg.uc (chunkUniques cfg rows)).length :=
      List.fst_lt_of_mem_enum hklr
    have h2 : klr.2 ∈ mappedRows cfg.uc (chunkUniques cfg rows) :=
      List.snd_mem_of_mem_enum hklr
    have hrow : isUnmapped cfg.uc klr.2.2 = false := by
      have h3 := (List.mem_filter.mp h2).2
      simpa using h3
    have hdup := hnodup _ h1
    simp [hrow, hdup]
  constructor
  · rw [chunkUniques_eq_mapped cfg (chunkUniques cfg rows),
      List.filter_eq_self.mpr hallpass]
    have hmaprow : (mappedMarked cfg (chunkUniques cfg rows)).map Marked.row
        = chunkMapRecs cfg (chunkUniques cfg rows) := by
      unfold mappedMarked chunkMapRecs
      rw [List.map_map]
      show List.map ((fun lr : Nat × PRec => lr.2) ∘ Prod.snd)
          ((mappedRows cfg.uc (chunkUniques cfg rows)).enum)
        = List.map (fun lr : Nat × PRec => lr.2)
            (mappedRows cfg.uc (chunkUniques cfg rows))
      rw [← List.map_map, List.enum_eq_enumFrom, List.enumFrom_map_snd]
    rw [hmaprow, hmr]
  · unfold dedup_chunk
    rw [hunm, List.nil_append, List.filter_eq_nil_iff]
    intro mr hmr2
    have h4 := hallpass mr hmr2
    simp only [Bool.and_eq_true, Bool.not_eq_true'] at h4
    simp [h4.2]

namespace CY

/-! Embedding of `streaming_dedup_cython` of `lib/dedup.py`: the
line-oriented driver around the cython `OnlineDuplicateDetector`.  The
detector itself is compiled cython code not under src/, so the driver is
parametrised by a detector interface, and a concrete detector modelled
from the spec is provided below (`onlineDD`).  The `keep_parent_id=True`
branches call into the missing detector's parent tracking, which the spec
declares unsupported for the online backend; the embedding models the
`keep_parent_id=False` paths. -/

/-- Python whitespace (the characters `str.strip()` removes). -/
def pySpace (c : Char) : Bool :=
  c == ' ' || c == '\t' || c == '\n' || c == '\r' || c == '\x0b' || c == '\x0c'

/-- Python `s.strip()`. -/
def pyTrim (s : String) : String :=
  String.mk (((s.toList.dropWhile pySpace).reverse.dropWhile pySpace).reverse)

/-- Python `s.split(sep)` for a one-character separator (the separator
actually used is the tab), on the character list. -/
def splitChars (sep : Char) : List Char → List (List Char)
  | [] => [[]]
  | c :: rest =>
      let r := splitChars sep rest
      if c == sep then [] :: r
      else
        match r with
        | [] => [[c]]
        | g :: gs => (c :: g) :: gs

/-- Python `stripline.split(sep)`. -/
def splitOnSep (sep : Char) (s : String) : List String :=
  (splitChars sep s.toList).map String.mk

/-- Python `sep.join(cols)`. -/
def joinSep (sep : Char) : List String → String
  | [] => ""
  | c :: rest => rest.foldl (fun acc x => acc ++ String.singleton sep ++ x) c

/-- Decimal digit run to a number (`none` when empty or not all digits). -/
def digitsToNat (ds : List Char) : Option Nat :=
  if ds.isEmpty then none
  else if ds.all (fun c => c.isDigit) then
    some (ds.foldl (fun acc c => acc * 10 + (c.toNat - 48)) 0)
  else none

/-- Python `int()` on a string: surrounding whitespace stripped, optional
sign, decimal digits; raises `ValueError` (`none`) otherwise (underscore
separators, which no pairs file contains, are not modelled). -/
def pyInt (s : String) : Option Int :=
  match (pyTrim s).toList with
  | '-' :: ds => (digitsToNat ds).map (fun n => -(n : Int))
  | '+' :: ds => (digitsToNat ds).map (fun n => (n : Int))
  | ds => (digitsToNat ds).map (fun n => (n : Int))

/-- `fetchadd(key, mydict)`: strip the key, intern it into the
insertion-ordered table, return its id (= its insertion position). -/
def fetchadd (key : String) (d : List String) : Nat × List String :=
  let k := pyTrim key
  match d.findIdx? (fun x => x == k) with
  | some i => (i, d)
  | none => (d.length, d ++ [k])

/-- `rawline.strip('\n')`. -/
def stripNl (s : String) : String :=
  String.mk (((s.toList.dropWhile (fun c => c == '\n')).reverse.dropWhile
    (fun c => c == '\n')).reverse)

/-- One `out_stat.add_pair(...)` invocation. -/
structure StatCall where
  c1 : String
  p1 : Int
  s1 : String
  c2 : String
  p2 : Int
  s2 : String
  tag : String
deriving Repr, DecidableEq, Inhabited

/-- The `ValueError` sites of the driver (all `ValueError` in Python,
distinguished here by site). -/
inductive Err where
  | badCols
  | badInt
  | leftover
deriving Repr, DecidableEq

/-- `pairsam_format.COL_PTYPE`.  Modelled from the spec: the standard
pairs column layout (readID, chrom1, pos1, chrom2, pos2, strand1,
strand2, pair_type) puts pair_type at index 7; the `pairsam_format`
module is not under src/. -/
def COL_PTYPE : Nat := 7

/-- The options and sink/stat presence flags of
`streaming_dedup_cython`. -/
structure Cfg where
  sep : Char
  c1ind : Nat
  c2ind : Nat
  p1ind : Nat
  p2ind : Nat
  s1ind : Nat
  s2ind : Nat
  extraCols1 : List Nat
  extraCols2 : List Nat
  uc : String
  outStat : Bool
  dupsSink : Bool
  unmSink : Bool
  markDups : Bool
  maxLen : Nat
deriving Repr

/-- `maxind`: the largest column index the driver reads (plus
`COL_PTYPE` when stats are requested). -/
def maxind (cfg : Cfg) : Nat :=
  let m1 := Nat.max (Nat.max (Nat.max cfg.c1ind cfg.c2ind)
    (Nat.max cfg.p1ind cfg.p2ind)) (Nat.max cfg.s1ind cfg.s2ind)
  let m2 := if !cfg.extraCols1.isEmpty && !cfg.extraCols2.isEmpty then
    Nat.max m1 (Nat.max (cfg.extraCols1.foldl Nat.max 0)
      (cfg.extraCols2.foldl Nat.max 0)) else m1
  if cfg.outStat then Nat.max m2 COL_PTYPE else m2

/-- One row handed to the detector (`ar(c1, 32), ...`: the interned
chrom and strand ids and the two integer positions). -/
structure DRow where
  c1 : Nat
  c2 : Nat
  p1 : Int
  p2 : Int
  s1 : Nat
  s2 : Nat
deriving Repr, DecidableEq

/-- The detector interface (`dd.push`, `dd.finish`); `pend` counts the
records pushed but not yet classified, the quantity the driver's buffer
trimming relies on. -/
structure Det (σ : Type) where
  init : σ
  push : σ → List DRow → σ × List Bool
  fin : σ → List Bool
  pend : σ → Nat

/-- The driver state: detector state, the six value buffers
(`c1 .. s2`), the line and column buffers, the two intern tables, the
three sinks, the stat calls, the processed-record count `N`, and the
raised exception if any. -/
structure St (σ : Type) where
  det : σ
  bc1 : List Nat
  bc2 : List Nat
  bp1 : List Int
  bp2 : List Int
  bs1 : List Nat
  bs2 : List Nat
  lineBuf : List String
  colsBuf : List (List String)
  chromDict : List String
  strandDict : List String
  outU : List String
  outD : List String
  outUnm : List String
  stats : List StatCall
  resLog : List Bool
  nCount : Nat
  err : Option Err

/-- The `add_pair` argument tuple built from a column list
(`cols[c1ind], int(cols[p1ind]), cols[s1ind], cols[c2ind],
int(cols[p2ind]), cols[s2ind], tag`; the positions re-parse strings that
already parsed when the record was buffered, so the default never
fires). -/
def colsStat (cfg : Cfg) (cols : List String) (tag : String) : StatCall :=
  ⟨cols.getD cfg.c1ind "", (pyInt (cols.getD cfg.p1ind "")).getD 0,
   cols.getD cfg.s1ind "", cols.getD cfg.c2ind "",
   (pyInt (cols.getD cfg.p2ind "")).getD 0, cols.getD cfg.s2ind "", tag⟩

/-- Pair-type rewriting for the duplicates sink
(`sep.join(mark_split_pair_as_dup(cols_buffer[i]))`): the pair-type
column is set to "DD".  Modelled from the spec for the sam columns: the
spec puts duplicate-marking of auxiliary alignment text out of scope and
the test records carry no sam columns, so they are left untouched. -/
def markSplitPairAsDup (cfg : Cfg) (cols : List String) : String :=
  joinSep cfg.sep (cols.set COL_PTYPE "DD")

/-- One iteration of the classification loop
(`for i in range(len(res))`): a non-duplicate is written to the unique
sink and reported with its own pair type; a duplicate is reported with
"DD" and written, optionally rewritten, to the duplicates sink. -/
def resStep {σ : Type} (cfg : Cfg) (acc : St σ)
    (lcb : (String × List String) × Bool) : St σ :=
  let line := lcb.1.1
  let cols := lcb.1.2
  if !lcb.2 then
    { acc with
      outU := acc.outU ++ [line],
      stats := (if cfg.outStat then
        acc.stats ++ [colsStat cfg cols (cols.getD COL_PTYPE "")] else acc.stats) }
  else
    { acc with
      stats := (if cfg.outStat then
        acc.stats ++ [colsStat cfg cols "DD"] else acc.stats),
      outD := (if cfg.dupsSink then
        acc.outD ++ [if cfg.markDups then markSplitPairAsDup cfg cols else line]
        else acc.outD) }

/-- The classification loop: the i-th classification applies to the i-th
buffered line (`line_buffer[i]`, `cols_buffer[i]`; the detector never
returns more classifications than there are buffered lines). -/
def processRes {σ : Type} (cfg : Cfg) (st : St σ) (res : List Bool) : St σ :=
  ((st.lineBuf.zip st.colsBuf).zip res).foldl (resStep cfg) st

/-- The rows handed to one `dd.push` call, assembled from the six
buffers. -/
def buildBatch {σ : Type} (st : St σ) : List DRow :=
  (List.range st.bc1.length).map (fun i =>
    ⟨st.bc1.getD i 0, st.bc2.getD i 0, st.bp1.getD i 0, st.bp2.getD i 0,
     st.bs1.getD i 0, st.bs2.getD i 0⟩)

/-- One buffer flush: push the buffered rows (plus `dd.finish()` at end
of input), run the classification loop, clear the six buffers and drop
the classified prefix of the line buffers.  `resLog` records the `res`
array exactly as the detector returned it, in order, so the state keeps
the full classification stream the detector emitted during the run. -/
def flush {σ : Type} (cfg : Cfg) (d : Det σ) (atEof : Bool) (st : St σ) :
    St σ :=
  let pr := d.push st.det (buildBatch st)
  let res := if atEof then pr.2 ++ d.fin pr.1 else pr.2
  let st2 := processRes cfg st res
  { st2 with
    det := pr.1, bc1 := [], bc2 := [], bp1 := [], bp2 := [],
    bs1 := [], bs2 := [],
    lineBuf := st.lineBuf.drop res.length,
    colsBuf := st.colsBuf.drop res.length,
    resLog := st.resLog ++ res }

/-- Processing of one non-empty stripped line: column count check,
unmapped branch (verbatim write, then stats, whose `int()` calls can
fail after the write), or mapped branch (buffer the line, intern the
chroms, parse the positions - failure raises before anything is emitted -
and intern the strand keys, folding in the extra columns when both lists
are non-empty). -/
def processLine {σ : Type} (cfg : Cfg) (st : St σ) (stripline : String) :
    St σ :=
  let cols := splitOnSep cfg.sep stripline
  if cols.length ≤ maxind cfg then { st with err := some Err.badCols }
  else if cols.getD cfg.c1ind "" == cfg.uc ||
      cols.getD cfg.c2ind "" == cfg.uc then
    let st1 := { st with outUnm :=
      (if cfg.unmSink then st.outUnm ++ [stripline] else st.outUnm) }
    if cfg.outStat then
      match pyInt (cols.getD cfg.p1ind ""), pyInt (cols.getD cfg.p2ind "") with
      | some _, some _ =>
          { st1 with
            stats := st1.stats ++ [colsStat cfg cols (cols.getD COL_PTYPE "")],
            nCount := st1.nCount + 1 }
      | _, _ => { st1 with err := some Err.badInt }
    else { st1 with nCount := st1.nCount + 1 }
  else
    let lineBuf2 := st.lineBuf ++ [stripline]
    let colsBuf2 := st.colsBuf ++ [cols]
    let r1 := fetchadd (cols.getD cfg.c1ind "") st.chromDict
    let r2 := fetchadd (cols.getD cfg.c2ind "") r1.2
    match pyInt (cols.getD cfg.p1ind ""), pyInt (cols.getD cfg.p2ind "") with
    | none, _ =>
        { st with
          lineBuf := lineBuf2, colsBuf := colsBuf2,
          chromDict := r2.2, bc1 := st.bc1 ++ [r1.1], bc2 := st.bc2 ++ [r2.1],
          err := some Err.badInt }
    | some _, none =>
        { st with
          lineBuf := lineBuf2, colsBuf := colsBuf2,
          chromDict := r2.2, bc1 := st.bc1 ++ [r1.1], bc2 := st.bc2 ++ [r2.1],
          err := some Err.badInt }
    | some p1, some p2 =>
        let s1 :=
          if !cfg.extraCols1.isEmpty && !cfg.extraCols2.isEmpty then
            fetchadd (String.join ((cfg.s1ind :: cfg.extraCols1).map
              (fun i => cols.getD i ""))) st.strandDict
          else fetchadd (cols.getD cfg.s1ind "") st.strandDict
        let s2 :=
          if !cfg.extraCols1.isEmpty && !cfg.extraCols2.isEmpty then
            fetchadd (String.join ((cfg.s2ind :: cfg.extraCols2).map
              (fun i => cols.getD i ""))) s1.2
          else fetchadd (cols.getD cfg.s2ind "") s1.2
        { st with
          lineBuf := lineBuf2, colsBuf := colsBuf2,
          chromDict := r2.2, strandDict := s2.2,
          bc1 := st.bc1 ++ [r1.1], bc2 := st.bc2 ++ [r2.1],
          bp1 := st.bp1 ++ [p1], bp2 := st.bp2 ++ [p2],
          bs1 := st.bs1 ++ [s1.1], bs2 := st.bs2 ++ [s2.1],
          nCount := st.nCount + 1 }

/-- One iteration of the read loop: once an exception was raised nothing
more happens; an empty-but-present line is warned about and skipped
(before the flush test, as `continue` does); otherwise the line is
processed and the buffer is flushed when it reached `curMaxLen` rows. -/
def step {σ : Type} (cfg : Cfg) (d : Det σ) (st : St σ) (rawline : String) :
    St σ :=
  if st.err.isSome then st
  else
    let stripline := stripNl rawline
    if stripline.toList.isEmpty then st
    else
      let st1 := processLine cfg st stripline
      if st1.err.isSome then st1
      else if st1.bc1.length == cfg.maxLen then flush cfg d false st1
      else st1

/-- The initial driver state. -/
def initSt {σ : Type} (d : Det σ) : St σ :=
  ⟨d.init, [], [], [], [], [], [], [], [], [], [], [], [], [], [], [], 0, none⟩

/-- The read loop over the input lines (the state after the last line,
before the end-of-input flush). -/
def partialRun {σ : Type} (cfg : Cfg) (d : Det σ) (lines : List String) :
    St σ :=
  lines.foldl (step cfg d) (initSt d)

/-- End of input (`stripline` is `None`): final flush with
`dd.finish()`, then the leftover-buffer consistency check. -/
def finalize {σ : Type} (cfg : Cfg) (d : Det σ) (st : St σ) : St σ :=
  if st.err.isSome then st
  else
    let st2 := flush cfg d true st
    if st2.lineBuf.isEmpty then st2 else { st2 with err := some Err.leftover }

/-- The whole driver `streaming_dedup_cython`. -/
def run {σ : Type} (cfg : Cfg) (d : Det σ) (lines : List String) : St σ :=
  finalize cfg d (partialRun cfg d lines)

/-! A concrete detector.  Modelled from the spec: the cython
`OnlineDuplicateDetector` is compiled code not under src/; spec section
4.4 describes the online backend as a FIFO window with a sort-based
eviction rule, a bounding-box-then-metric match rule against the window,
duplicate marking on entry, unique classification on eviction or at
finish, and classifications returned in input order (so a record's
classification is returned once every earlier record's one is known). -/

/-- A record held by the detector: its row, whether it is still in the
active window, and its classification when already decided (`some true`
dup on entry, `some false` unique on eviction, `none` pending). -/
structure ODEntry where
  row : DRow
  inWin : Bool
  cls : Option Bool
deriving Repr, DecidableEq

/-- Detector state: all pushed, not yet returned records in arrival
order. -/
structure ODState where
  q : List ODEntry
deriving Repr, DecidableEq

/-- Modelled from the spec (4.4 step 1): the window's oldest records are
evicted while sorted strictly before the incoming record: smaller
chrom1, equal chrom1 and smaller chrom2, or same chroms and pos1 more
than r behind. -/
def evictCond (r : Nat) (y x : DRow) : Bool :=
  decide (y.c1 < x.c1) || (y.c1 == x.c1 && decide (y.c2 < x.c2)) ||
    (y.c1 == x.c1 && y.c2 == x.c2 && decide (y.p1 < x.p1 - (r : Int)))

/-- Modelled from the spec (4.4 step 2): bounding box on both positions,
then the exact metric, and equal chrom and strand ids. -/
def matchCond (m : Method) (r : Nat) (y x : DRow) : Bool :=
  decide ((x.p1 - y.p1).natAbs ≤ r) && decide ((x.p2 - y.p2).natAbs ≤ r) &&
    (match m with
     | Method.sum => decide ((x.p1 - y.p1).natAbs + (x.p2 - y.p2).natAbs ≤ r)
     | Method.max => true) &&
    y.c1 == x.c1 && y.c2 == x.c2 && y.s1 == x.s1 && y.s2 == x.s2

/-- The eviction sweep: walk the queue from its front, finalising every
leading window record sorted before `x` as unique (a duplicate mark
already made stands). -/
def evictLoop (r : Nat) (x : DRow) : List ODEntry → List ODEntry
  | [] => []
  | e :: rest =>
      if e.inWin then
        if evictCond r e.row x then
          { e with inWin := false, cls := some (e.cls.getD false) } ::
            evictLoop r x rest
        else e :: rest
      else e :: evictLoop r x rest

/-- One incoming record: evict, scan the remaining window for a match,
append (marked duplicate on entry when a match exists). -/
def odStep (m : Method) (r : Nat) (st : ODState) (x : DRow) : ODState :=
  let q1 := evictLoop r x st.q
  let isDup := q1.any (fun e => e.inWin && matchCond m r e.row x)
  ⟨q1 ++ [⟨x, true, if isDup then some true else none⟩]⟩

/-- Classifications are returned in input order: the maximal decided
prefix of the queue is emitted, the rest retained. -/
def odEmit : List ODEntry → List Bool × List ODEntry
  | [] => ([], [])
  | e :: rest =>
      match e.cls with
      | none => ([], e :: rest)
      | some b =>
          let pr := odEmit rest
          (b :: pr.1, pr.2)

def odPush (m : Method) (r : Nat) (st : ODState) (batch : List DRow) :
    ODState × List Bool :=
  let st2 := batch.foldl (odStep m r) st
  let pr := odEmit st2.q
  (⟨pr.2⟩, pr.1)

/-- `finish()`: drain the queue, pending records coming out unique. -/
def odFin (st : ODState) : List Bool :=
  st.q.map (fun e => e.cls.getD false)

def odPend (st : ODState) : Nat := st.q.length

/-- The spec-modelled online detector. -/
def onlineDD (m : Method) (r : Nat) : Det ODState :=
  ⟨⟨[]⟩, odPush m r, odFin, odPend⟩

theorem evictLoop_length (r : Nat) (x : DRow) :
    ∀ q : List ODEntry, (evictLoop r x q).length = q.length := by
  intro q
  induction q with
  | nil => rfl
  | cons e rest ih =>
      unfold evictLoop
      by_cases h1 : e.inWin
      · by_cases h2 : evictCond r e.row x
        · simp [h1, h2, ih]
        · simp [h1, h2]
      · simp [h1, ih]

theorem odStep_length (m : Method) (r : Nat) (st : ODState) (x : DRow) :
    (odStep m r st x).q.length = st.q.length + 1 := by
  unfold odStep
  simp [evictLoop_length]

theorem foldl_odStep_length (m : Method) (r : Nat) (batch : List DRow) :
    ∀ st : ODState, (batch.foldl (odStep m r) st).q.length
      = st.q.length + batch.length := by
  induction batch with
  | nil => intro st; rfl
  | cons x xs ih =>
      intro st
      rw [List.foldl_cons, ih, odStep_length]
      simp only [List.length_cons]
      omega

theorem odEmit_length :
    ∀ q : List ODEntry, (odEmit q).1.length + (odEmit q).2.length = q.length := by
  intro q
  induction q with
  | nil => rfl
  | cons e rest ih =>
      unfold odEmit
      cases hc : e.cls with
      | none => simp
      | some b =>
          simp only [List.length_cons]
          omega

/-- Conservation of the modelled detector: each push returns exactly the
classifications that left the pending queue. -/
theorem odPush_conservation (m : Method) (r : Nat) :
    ∀ (s : ODState) (b : List DRow),
      ((onlineDD m r).push s b).2.length +
        (onlineDD m r).pend ((onlineDD m r).push s b).1
        = (onlineDD m r).pend s + b.length := by
  intro s b
  show (odPush m r s b).2.length + odPend (odPush m r s b).1
    = odPend s + b.length
  unfold odPush odPend
  have h1 := odEmit_length (b.foldl (odStep m r) s).q
  have h2 := foldl_odStep_length m r b s
  simp only []
  omega

/-- `finish()` returns one classification per pending record. -/
theorem odFin_conservation (m : Method) (r : Nat) :
    ∀ s : ODState, ((onlineDD m r).fin s).length = (onlineDD m r).pend s := by
  intro s
  show (odFin s).length = odPend s
  unfold odFin odPend
  simp

theorem odPend_init (m : Method) (r : Nat) :
    (onlineDD m r).pend (onlineDD m r).init = 0 := rfl

/-! Exception propagation facts. -/

theorem step_of_err {σ : Type} (cfg : Cfg) (d : Det σ) (st : St σ)
    (l : String) (h : st.err.isSome) : step cfg d st l = st := by
  unfold step
  simp [h]

theorem foldl_step_of_err {σ : Type} (cfg : Cfg) (d : Det σ)
    (ls : List String) : ∀ st : St σ, st.err.isSome →
      ls.foldl (step cfg d) st = st := by
  induction ls with
  | nil => intro st _; rfl
  | cons l t ih =>
      intro st h
      rw [List.foldl_cons, step_of_err cfg d st l h, ih st h]

theorem finalize_of_err {σ : Type} (cfg : Cfg) (d : Det σ) (st : St σ)
    (h : st.err.isSome) : finalize cfg d st = st := by
  unfold finalize
  simp [h]

theorem partialRun_append {σ : Type} (cfg : Cfg) (d : Det σ)
    (l1 l2 : List String) :
    partialRun cfg d (l1 ++ l2) = l2.foldl (step cfg d) (partialRun cfg d l1) := by
  unfold partialRun
  rw [List.foldl_append]

/-- A mapped line whose pos1 or pos2 does not parse makes `processLine`
raise before touching any sink or the stat list. -/
theorem processLine_badInt {σ : Type} (cfg : Cfg) (st : St σ) (sl : String)
    (hlen : ¬(splitOnSep cfg.sep sl).length ≤ maxind cfg)
    (hunm : ((splitOnSep cfg.sep sl).getD cfg.c1ind "" == cfg.uc ||
      (splitOnSep cfg.sep sl).getD cfg.c2ind "" == cfg.uc) = false)
    (hbad : pyInt ((splitOnSep cfg.sep sl).getD cfg.p1ind "") = none ∨
      pyInt ((splitOnSep cfg.sep sl).getD cfg.p2ind "") = none) :
    (processLine cfg st sl).err = some Err.badInt ∧
      (processLine cfg st sl).outU = st.outU ∧
      (processLine cfg st sl).outD = st.outD ∧
      (processLine cfg st sl).outUnm = st.outUnm ∧
      (processLine cfg st sl).stats = st.stats := by
  unfold processLine
  have hunm2 : ¬(((splitOnSep cfg.sep sl).getD cfg.c1ind "" == cfg.uc ||
      (splitOnSep cfg.sep sl).getD cfg.c2ind "" == cfg.uc) = true) := by
    rw [hunm]
    simp
  rw [if_neg hlen, if_neg hunm2]
  rcases hbad with h1 | h2
  · rw [h1]
    exact ⟨rfl, rfl, rfl, rfl, rfl⟩
  · cases hp1 : pyInt ((splitOnSep cfg.sep sl).getD cfg.p1ind "") with
    | none => exact ⟨rfl, rfl, rfl, rfl, rfl⟩
    | some v =>
        rw [h2]
        exact ⟨rfl, rfl, rfl, rfl, rfl⟩

/-- Amended C8: a mapped line with an unparseable pos1 or pos2 aborts the
run with `ValueError` at that line; the record is neither classified nor
emitted, and no sink or stat call moves past the state reached before
the bad line.  (Negative integer positions parse and are accepted;
unmapped lines' positions are only parsed when stats are requested, after
the unmapped sink write.) -/
theorem C8_amended {σ : Type} (cfg : Cfg) (d : Det σ) (pre : List String)
    (bad : String) (rest : List String)
    (hpre : (partialRun cfg d pre).err = none)
    (hne : (stripNl bad).toList.isEmpty = false)
    (hlen : ¬(splitOnSep cfg.sep (stripNl bad)).length ≤ maxind cfg)
    (hunm : ((splitOnSep cfg.sep (stripNl bad)).getD cfg.c1ind "" == cfg.uc ||
      (splitOnSep cfg.sep (stripNl bad)).getD cfg.c2ind "" == cfg.uc) = false)
    (hbad : pyInt ((splitOnSep cfg.sep (stripNl bad)).getD cfg.p1ind "") = none ∨
      pyInt ((splitOnSep cfg.sep (stripNl bad)).getD cfg.p2ind "") = none) :
    (run cfg d (pre ++ bad :: rest)).err = some Err.badInt ∧
      (run cfg d (pre ++ bad :: rest)).outU = (partialRun cfg d pre).outU ∧
      (run cfg d (pre ++ bad :: rest)).outD = (partialRun cfg d pre).outD ∧
      (run cfg d (pre ++ bad :: rest)).outUnm
        = (partialRun cfg d pre).outUnm ∧
      (run cfg d (pre ++ bad :: rest)).stats = (partialRun cfg d pre).stats := by
  have hpl := processLine_badInt cfg (partialRun cfg d pre) (stripNl bad)
    hlen hunm hbad
  have hstep : step cfg d (partialRun cfg d pre) bad
      = processLine cfg (partialRun cfg d pre) (stripNl bad) := by
    unfold step
    rw [if_neg (by simp [hpre]), if_neg (by simpa using hne)]
    rw [if_pos (by simp [hpl.1])]
  have hrun : run cfg d (pre ++ bad :: rest)
      = processLine cfg (partialRun cfg d pre) (stripNl bad) := by
    unfold run
    rw [partialRun_append, List.foldl_cons, hstep,
      foldl_step_of_err _ _ _ _ (by simp [hpl.1]),
      finalize_of_err _ _ _ (by simp [hpl.1])]
  rw [hrun]
  exact hpl

/-- Counterexample configuration for C8: the standard pairs layout
(readID 0, chrom1 1, pos1 2, chrom2 3, pos2 4, strand1 5, strand2 6,
pair_type 7), stats and all sinks on. -/
def c8cfg : Cfg :=
  ⟨'\t', 1, 3, 2, 4, 5, 6, [], [], "!", true, true, true, false, 10000⟩

def c8lines : List String := ["r1\tchr1\t-5\tchr2\t200\t+\t+\tUU"]

/-- Claim C8 is false as stated: `int("-5")` parses, so a record with
pos1 = -5 raises nothing, is classified, emitted on the unique sink, and
reported to the stats sink with its negative position. -/
theorem C8_counterexample :
    pyInt "-5" = some (-5) ∧
      (run c8cfg (onlineDD Method.max 3) c8lines).err = none ∧
      (run c8cfg (onlineDD Method.max 3) c8lines).outU = c8lines ∧
      (run c8cfg (onlineDD Method.max 3) c8lines).stats.map
        (fun sc => (sc.p1, sc.tag)) = [(-5, "UU")] := by
  refine ⟨by decide, by decide, by decide, by decide⟩

def c8wline : String := "r1\tchr1\tXY\tchr2\t200\t+\t+\tUU"

/-- Witness for the amended C8 at a concrete unparseable position. -/
theorem C8_amended_witness :
    ((partialRun c8cfg (onlineDD Method.max 3) []).err = none ∧
      (stripNl c8wline).toList.isEmpty = false ∧
      ¬(splitOnSep c8cfg.sep (stripNl c8wline)).length ≤ maxind c8cfg ∧
      ((splitOnSep c8cfg.sep (stripNl c8wline)).getD c8cfg.c1ind "" == c8cfg.uc ||
        (splitOnSep c8cfg.sep (stripNl c8wline)).getD c8cfg.c2ind ""
          == c8cfg.uc) = false ∧
      pyInt ((splitOnSep c8cfg.sep (stripNl c8wline)).getD c8cfg.p1ind "")
        = none) ∧
      ((run c8cfg (onlineDD Method.max 3) ([] ++ c8wline :: [])).err
          = some Err.badInt ∧
        (run c8cfg (onlineDD Method.max 3) ([] ++ c8wline :: [])).outU
          = (partialRun c8cfg (onlineDD Method.max 3) []).outU ∧
        (run c8cfg (onlineDD Method.max 3) ([] ++ c8wline :: [])).outD
          = (partialRun c8cfg (onlineDD Method.max 3) []).outD ∧
        (run c8cfg (onlineDD Method.max 3) ([] ++ c8wline :: [])).outUnm
          = (partialRun c8cfg (onlineDD Method.max 3) []).outUnm ∧
        (run c8cfg (onlineDD Method.max 3) ([] ++ c8wline :: [])).stats
          = (partialRun c8cfg (onlineDD Method.max 3) []).stats) :=
  ⟨⟨by decide, by decide, by decide, by decide, by decide⟩,
    C8_amended c8cfg (onlineDD Method.max 3) [] c8wline []
      (by decide) (by decide) (by decide) (by decide) (Or.inl (by decide))⟩

/-- Counterexample configuration and input for C7: a mapped record
followed by an unmapped one, stats on. -/
def c7cfg : Cfg :=
  ⟨'\t', 1, 3, 2, 4, 5, 6, [], [], "!", true, true, true, false, 10000⟩

def c7lines : List String :=
  ["r1\tchr1\t100\tchr2\t200\t+\t+\tUU", "r2\t!\t0\tchr2\t0\t+\t+\tNU"]

/-- Claim C7 is false as stated: the unmapped record r2 is reported to
the stats sink at read time but the mapped record r1 only at the
end-of-input flush, so the `add_pair` sequence is r2 then r1 - not the
input order r1 then r2. -/
theorem C7_counterexample :
    (run c7cfg (onlineDD Method.max 3) c7lines).err = none ∧
      (run c7cfg (onlineDD Method.max 3) c7lines).stats.map (fun sc => sc.c1)
        = ["!", "chr1"] ∧
      c7lines.map (fun l => (splitOnSep c7cfg.sep l).getD c7cfg.c1ind "")
        = ["chr1", "!"] ∧
      (run c7cfg (onlineDD Method.max 3) c7lines).stats.map (fun sc => sc.c1)
        ≠ c7lines.map (fun l => (splitOnSep c7cfg.sep l).getD c7cfg.c1ind "") ∧
      (run c7cfg (onlineDD Method.max 3) c7lines).stats.map (fun sc => sc.tag)
        = ["NU", "UU"] := by
  refine ⟨by decide, by decide, by decide, by decide, by decide⟩

/-- The records of the input body: the non-empty stripped lines, split
into columns. -/
def parsedRecs (cfg : Cfg) (lines : List String) : List (List String) :=
  ((lines.map stripNl).filter (fun l => !l.toList.isEmpty)).map
    (fun l => splitOnSep cfg.sep l)

/-- The unmapped test on a column list. -/
def isUnmCols (cfg : Cfg) (cols : List String) : Bool :=
  cols.getD cfg.c1ind "" == cfg.uc || cols.getD cfg.c2ind "" == cfg.uc

/-- The unmapped test on a stat call (its chrom fields are the record's
chrom columns, so this classifies a call by the record sort it reported). -/
def isUnmStat (cfg : Cfg) (sc : StatCall) : Bool :=
  sc.c1 == cfg.uc || sc.c2 == cfg.uc

theorem isUnmStat_colsStat (cfg : Cfg) (cols : List String) (tag : String) :
    isUnmStat cfg (colsStat cfg cols tag) = isUnmCols cfg cols := rfl

theorem buildBatch_length {σ : Type} (st : St σ) :
    (buildBatch st).length = st.bc1.length := by
  simp [buildBatch]

theorem parsedRecs_append_one (cfg : Cfg) (processed : List String)
    (l : String) :
    parsedRecs cfg (processed ++ [l])
      = parsedRecs cfg processed ++
        (if (stripNl l).toList.isEmpty then []
          else [splitOnSep cfg.sep (stripNl l)]) := by
  unfold parsedRecs
  rw [List.map_append, List.filter_append, List.map_append]
  by_cases h : (stripNl l).toList.isEmpty
  · have hd : (stripNl l).data = [] := by simpa [List.isEmpty_iff] using h
    simp [List.filter_cons, List.isEmpty_iff, hd]
  · have hd : ¬(stripNl l).data = [] := by simpa [List.isEmpty_iff] using h
    simp [List.filter_cons, List.isEmpty_iff, hd]

/-- The stat call and the sink writes appended by the classification
loop, and the fields it leaves untouched. -/
theorem resFold_spec {σ : Type} (cfg : Cfg) (hstat : cfg.outStat = true) :
    ∀ (zl : List ((String × List String) × Bool)) (st : St σ),
      (zl.foldl (resStep cfg) st).stats
          = st.stats ++ zl.map (fun lcb =>
              colsStat cfg lcb.1.2
                (if lcb.2 then "DD" else lcb.1.2.getD COL_PTYPE "")) ∧
        (zl.foldl (resStep cfg) st).err = st.err ∧
        (zl.foldl (resStep cfg) st).colsBuf = st.colsBuf ∧
        (zl.foldl (resStep cfg) st).lineBuf = st.lineBuf := by
  intro zl
  induction zl with
  | nil => intro st; simp
  | cons lcb t ih =>
      intro st
      rw [List.foldl_cons]
      have hstep : (resStep cfg st lcb).stats
          = st.stats ++ [colsStat cfg lcb.1.2
              (if lcb.2 then "DD" else lcb.1.2.getD COL_PTYPE "")] ∧
            (resStep cfg st lcb).err = st.err ∧
            (resStep cfg st lcb).colsBuf = st.colsBuf ∧
            (resStep cfg st lcb).lineBuf = st.lineBuf := by
        unfold resStep
        by_cases hb : lcb.2
        · simp [hb, hstat]
        · simp [hb, hstat]
      rcases ih (resStep cfg st lcb) with ⟨h1, h2, h3, h4⟩
      refine ⟨?_, ?_, ?_, ?_⟩
      · rw [h1, hstep.1]
        simp
      · rw [h2, hstep.2.1]
      · rw [h3, hstep.2.2.1]
      · rw [h4, hstep.2.2.2]

/-- Zipping against a pair list reads only the second components when the
first two lists run in step. -/
theorem zip_zip_map_snd {α β γ : Type} :
    ∀ (A : List α) (B : List β) (C : List γ), A.length = B.length →
      ((A.zip B).zip C).map (fun x => (x.1.2, x.2)) = B.zip C := by
  intro A
  induction A with
  | nil =>
      intro B C h
      rw [List.length_nil] at h
      rw [List.eq_nil_of_length_eq_zero h.symm]
      simp
  | cons a at2 ih =>
      intro B C h
      cases B with
      | nil => simp at h
      | cons b bt =>
          cases C with
          | nil => simp
          | cons c ct =>
              simp only [List.zip_cons_cons, List.map_cons]
              rw [ih bt ct (by simpa using h)]

theorem map_fst_zip_take {β γ : Type} :
    ∀ (B : List β) (C : List γ), (B.zip C).map Prod.fst = B.take C.length := by
  intro B
  induction B with
  | nil => intro C; simp
  | cons b bt ih =>
      intro C
      cases C with
      | nil => simp
      | cons c ct =>
          simp only [List.zip_cons_cons, List.map_cons, List.length_cons,
            List.take_succ_cons]
          rw [ih ct]

/-- The driver-loop invariant for the stats bookkeeping: no exception,
line and column buffers in step, only mapped records buffered, the
unmapped stat calls made so far are exactly the unmapped records read so
far in order with their own pair type, and the mapped stat calls so far
are a classification log whose records plus the still-buffered ones are
exactly the mapped records read so far in order and whose flags are
exactly the classification stream the detector has returned so far. -/
structure Inv0 {σ : Type} (cfg : Cfg) (d : Det σ) (st : St σ)
    (processed : List String) : Prop where
  herr : st.err = none
  hcb : st.colsBuf.length = st.lineBuf.length
  hmappedBuf : ∀ cols ∈ st.colsBuf, isUnmCols cfg cols = false
  hstatU : st.stats.filter (fun sc => isUnmStat cfg sc)
    = ((parsedRecs cfg processed).filter (fun cols => isUnmCols cfg cols)).map
        (fun cols => colsStat cfg cols (cols.getD COL_PTYPE ""))
  hlog : ∃ log : List (List String × Bool),
    st.stats.filter (fun sc => !isUnmStat cfg sc)
        = log.map (fun cb => colsStat cfg cb.1
            (if cb.2 then "DD" else cb.1.getD COL_PTYPE "")) ∧
      log.map Prod.fst ++ st.colsBuf
        = (parsedRecs cfg processed).filter (fun cols => !isUnmCols cfg cols) ∧
      log.map Prod.snd = st.resLog

/-- The buffered lines are the pushed-but-unclassified records plus the
not-yet-pushed batch. -/
def InvP {σ : Type} (d : Det σ) (st : St σ) : Prop :=
  st.lineBuf.length = d.pend st.det + st.bc1.length

theorem map_snd_zip_of_le {β γ : Type} :
    ∀ (B : List β) (C : List γ), C.length ≤ B.length →
      (B.zip C).map Prod.snd = C := by
  intro B
  induction B with
  | nil =>
      intro C h
      cases C with
      | nil => rfl
      | cons c ct => simp at h
  | cons b bt ih =>
      intro C h
      cases C with
      | nil => simp
      | cons c ct =>
          simp only [List.zip_cons_cons, List.map_cons]
          rw [ih ct (by simp only [List.length_cons] at h; omega)]

/-- Core of a flush: running the classification loop over any prefix of
the buffers, clearing the six row buffers, dropping the classified
prefix of the line buffers and logging the returned classifications
preserves the stats bookkeeping invariant. -/
theorem flushCore_inv0 {σ : Type} (cfg : Cfg) (d : Det σ)
    (hstat : cfg.outStat = true) (st : St σ) (processed : List String)
    (h0 : Inv0 cfg d st processed) (det2 : σ) (res : List Bool)
    (hLle : res.length ≤ st.colsBuf.length) :
    Inv0 cfg d
      { processRes cfg st res with
        det := det2, bc1 := [], bc2 := [], bp1 := [], bp2 := [],
        bs1 := [], bs2 := [],
        lineBuf := st.lineBuf.drop res.length,
        colsBuf := st.colsBuf.drop res.length,
        resLog := st.resLog ++ res } processed := by
  obtain ⟨hst, herr2, _, _⟩ :=
    resFold_spec cfg hstat ((st.lineBuf.zip st.colsBuf).zip res) st
  have happ : ((st.lineBuf.zip st.colsBuf).zip res).map (fun lcb =>
      colsStat cfg lcb.1.2
        (if lcb.2 then "DD" else lcb.1.2.getD COL_PTYPE ""))
      = (st.colsBuf.zip res).map (fun cb =>
          colsStat cfg cb.1 (if cb.2 then "DD" else cb.1.getD COL_PTYPE "")) := by
    have hz := zip_zip_map_snd st.lineBuf st.colsBuf res h0.hcb.symm
    rw [← hz, List.map_map]
    rfl
  have hsts : (processRes cfg st res).stats
      = st.stats ++ ((st.lineBuf.zip st.colsBuf).zip res).map (fun lcb =>
          colsStat cfg lcb.1.2
            (if lcb.2 then "DD" else lcb.1.2.getD COL_PTYPE "")) := hst
  refine ⟨?_, ?_, ?_, ?_, ?_⟩
  · exact (show (processRes cfg st res).err = st.err from herr2).trans h0.herr
  · show (st.colsBuf.drop res.length).length = (st.lineBuf.drop res.length).length
    simp only [List.length_drop, h0.hcb]
  · show ∀ cols ∈ st.colsBuf.drop res.length, isUnmCols cfg cols = false
    intro cols hc
    exact h0.hmappedBuf cols (List.drop_subset _ _ hc)
  · show ((processRes cfg st res).stats).filter (fun sc => isUnmStat cfg sc) = _
    have hdropall : ((st.colsBuf.zip res).map (fun cb =>
        colsStat cfg cb.1 (if cb.2 then "DD" else cb.1.getD COL_PTYPE ""))).filter
          (fun sc => isUnmStat cfg sc) = [] := by
      rw [List.filter_eq_nil_iff]
      intro sc hsc
      rcases List.mem_map.mp hsc with ⟨cb, hcb2, rfl⟩
      rw [isUnmStat_colsStat]
      simp [h0.hmappedBuf cb.1 (List.of_mem_zip hcb2).1]
    rw [hsts, List.filter_append, happ, hdropall, List.append_nil]
    exact h0.hstatU
  · obtain ⟨log, hlog1, hlog2, hlog3⟩ := h0.hlog
    refine ⟨log ++ st.colsBuf.zip res, ?_, ?_, ?_⟩
    · show ((processRes cfg st res).stats).filter (fun sc => !isUnmStat cfg sc) = _
      have hkeepall : ((st.colsBuf.zip res).map (fun cb =>
          colsStat cfg cb.1 (if cb.2 then "DD" else cb.1.getD COL_PTYPE ""))).filter
            (fun sc => !isUnmStat cfg sc)
          = (st.colsBuf.zip res).map (fun cb =>
              colsStat cfg cb.1 (if cb.2 then "DD" else cb.1.getD COL_PTYPE "")) := by
        rw [List.filter_eq_self]
        intro sc hsc
        rcases List.mem_map.mp hsc with ⟨cb, hcb2, rfl⟩
        rw [isUnmStat_colsStat]
        simp [h0.hmappedBuf cb.1 (List.of_mem_zip hcb2).1]
      rw [hsts, List.filter_append, happ, hkeepall, hlog1, ← List.map_append]
    · show (log ++ st.colsBuf.zip res).map Prod.fst ++ st.colsBuf.drop res.length
        = _
      rw [List.map_append, map_fst_zip_take, List.append_assoc,
        List.take_append_drop]
      exact hlog2
    · show (log ++ st.colsBuf.zip res).map Prod.snd = st.resLog ++ res
      rw [List.map_append, map_snd_zip_of_le st.colsBuf res hLle, hlog3]

/-- What one buffer flush preserves and provides: the stats invariant
always, the pending-count equation mid-stream, empty line buffers at end
of input. -/
theorem flush_spec {σ : Type} (cfg : Cfg) (d : Det σ)
    (hstat : cfg.outStat = true)
    (hpush : ∀ s b, (d.push s b).2.length + d.pend (d.push s b).1
      = d.pend s + b.length)
    (hfin : ∀ s, (d.fin s).length = d.pend s)
    (atEof : Bool) (st : St σ) (processed : List String)
    (h0 : Inv0 cfg d st processed) (hP : InvP d st) :
    Inv0 cfg d (flush cfg d atEof st) processed ∧
      (atEof = false → InvP d (flush cfg d atEof st)) ∧
      (atEof = true → (flush cfg d atEof st).lineBuf = [] ∧
        (flush cfg d atEof st).colsBuf = []) := by
  have hp := hpush st.det (buildBatch st)
  rw [buildBatch_length] at hp
  unfold InvP at hP
  cases atEof with
  | false =>
      have hfl : flush cfg d false st
          = { processRes cfg st (d.push st.det (buildBatch st)).2 with
              det := (d.push st.det (buildBatch st)).1,
              bc1 := [], bc2 := [], bp1 := [], bp2 := [],
              bs1 := [], bs2 := [],
              lineBuf := st.lineBuf.drop
                (d.push st.det (buildBatch st)).2.length,
              colsBuf := st.colsBuf.drop
                (d.push st.det (buildBatch st)).2.length,
              resLog := st.resLog
                ++ (d.push st.det (buildBatch st)).2 } := rfl
      refine ⟨?_, ?_, ?_⟩
      · rw [hfl]
        exact flushCore_inv0 cfg d hstat st processed h0 _ _
          (by rw [h0.hcb]; omega)
      · intro _
        unfold InvP
        rw [hfl]
        show (st.lineBuf.drop (d.push st.det (buildBatch st)).2.length).length
          = d.pend (d.push st.det (buildBatch st)).1 + ([] : List Nat).length
        simp only [List.length_drop, List.length_nil]
        omega
      · intro hcontra
        exact absurd hcontra (by simp)
  | true =>
      have hfl : flush cfg d true st
          = { processRes cfg st
                ((d.push st.det (buildBatch st)).2 ++
                  d.fin (d.push st.det (buildBatch st)).1) with
              det := (d.push st.det (buildBatch st)).1,
              bc1 := [], bc2 := [], bp1 := [], bp2 := [],
              bs1 := [], bs2 := [],
              lineBuf := st.lineBuf.drop
                ((d.push st.det (buildBatch st)).2 ++
                  d.fin (d.push st.det (buildBatch st)).1).length,
              colsBuf := st.colsBuf.drop
                ((d.push st.det (buildBatch st)).2 ++
                  d.fin (d.push st.det (buildBatch st)).1).length,
              resLog := st.resLog
                ++ ((d.push st.det (buildBatch st)).2 ++
                  d.fin (d.push st.det (buildBatch st)).1) } := rfl
      have hlen : ((d.push st.det (buildBatch st)).2 ++
          d.fin (d.push st.det (buildBatch st)).1).length
            = st.lineBuf.length := by
        rw [List.length_append, hfin]
        omega
      refine ⟨?_, ?_, ?_⟩
      · rw [hfl]
        exact flushCore_inv0 cfg d hstat st processed h0 _ _
          (by rw [hlen, h0.hcb])
      · intro hcontra
        exact absurd hcontra (by simp)
      · intro _
        rw [hfl]
        constructor
        · show st.lineBuf.drop ((d.push st.det (buildBatch st)).2 ++
            d.fin (d.push st.det (buildBatch st)).1).length = []
          rw [hlen, List.drop_length]
        · show st.colsBuf.drop ((d.push st.det (buildBatch st)).2 ++
            d.fin (d.push st.det (buildBatch st)).1).length = []
          rw [hlen, h0.hcb.symm, List.drop_length]

/-- Processing one non-empty line either raises or preserves the stats
invariant, with the new record accounted on the side (unmapped stat call
or mapped buffer entry) that matches its sort. -/
theorem processLine_inv {σ : Type} (cfg : Cfg) (d : Det σ)
    (hstat : cfg.outStat = true) (st : St σ) (processed : List String)
    (l : String) (h0 : Inv0 cfg d st processed) (hP : InvP d st)
    (hne : (stripNl l).toList.isEmpty = false) :
    (processLine cfg st (stripNl l)).err.isSome = true ∨
      (Inv0 cfg d (processLine cfg st (stripNl l)) (processed ++ [l]) ∧
        InvP d (processLine cfg st (stripNl l))) := by
  have hpr : parsedRecs cfg (processed ++ [l])
      = parsedRecs cfg processed ++ [splitOnSep cfg.sep (stripNl l)] := by
    rw [parsedRecs_append_one, if_neg (by rw [hne]; simp)]
  unfold processLine
  by_cases hlen : (splitOnSep cfg.sep (stripNl l)).length ≤ maxind cfg
  · rw [if_pos hlen]
    left
    rfl
  · rw [if_neg hlen]
    by_cases hu : ((splitOnSep cfg.sep (stripNl l)).getD cfg.c1ind "" == cfg.uc
        || (splitOnSep cfg.sep (stripNl l)).getD cfg.c2ind "" == cfg.uc) = true
    · have hu' : isUnmCols cfg (splitOnSep cfg.sep (stripNl l)) = true := hu
      have hsingU : [splitOnSep cfg.sep (stripNl l)].filter
          (fun cols => isUnmCols cfg cols)
          = [splitOnSep cfg.sep (stripNl l)] := by simp [hu']
      have hsingM : [splitOnSep cfg.sep (stripNl l)].filter
          (fun cols => !isUnmCols cfg cols) = [] := by simp [hu']
      have hscU : [colsStat cfg (splitOnSep cfg.sep (stripNl l))
          ((splitOnSep cfg.sep (stripNl l)).getD COL_PTYPE "")].filter
            (fun sc => isUnmStat cfg sc)
          = [colsStat cfg (splitOnSep cfg.sep (stripNl l))
              ((splitOnSep cfg.sep (stripNl l)).getD COL_PTYPE "")] := by
        simp [isUnmStat_colsStat, hu']
      have hscM : [colsStat cfg (splitOnSep cfg.sep (stripNl l))
          ((splitOnSep cfg.sep (stripNl l)).getD COL_PTYPE "")].filter
            (fun sc => !isUnmStat cfg sc) = [] := by
        simp [isUnmStat_colsStat, hu']
      rw [if_pos hu, if_pos hstat]
      cases hp1 : pyInt ((splitOnSep cfg.sep (stripNl l)).getD cfg.p1ind "") with
      | none => left; rfl
      | some v1 =>
          cases hp2 : pyInt
              ((splitOnSep cfg.sep (stripNl l)).getD cfg.p2ind "") with
          | none => left; rfl
          | some v2 =>
              right
              refine ⟨⟨h0.herr, h0.hcb, h0.hmappedBuf, ?_, ?_⟩, hP⟩
              · show (st.stats ++ [colsStat cfg (splitOnSep cfg.sep (stripNl l))
                    ((splitOnSep cfg.sep (stripNl l)).getD COL_PTYPE "")]).filter
                      (fun sc => isUnmStat cfg sc) = _
                rw [List.filter_append, hscU, hpr, List.filter_append, hsingU,
                  List.map_append, h0.hstatU]
                simp
              · obtain ⟨log, h1, h2, h3⟩ := h0.hlog
                refine ⟨log, ?_, ?_, h3⟩
                · show (st.stats ++ [colsStat cfg
                      (splitOnSep cfg.sep (stripNl l))
                      ((splitOnSep cfg.sep (stripNl l)).getD COL_PTYPE "")]).filter
                        (fun sc => !isUnmStat cfg sc) = _
                  rw [List.filter_append, h1, hscM, List.append_nil]
                · show log.map Prod.fst ++ st.colsBuf = _
                  rw [hpr, List.filter_append, hsingM, List.append_nil]
                  exact h2
    · have hu' : isUnmCols cfg (splitOnSep cfg.sep (stripNl l)) = false := by
        revert hu
        unfold isUnmCols
        cases ((splitOnSep cfg.sep (stripNl l)).getD cfg.c1ind "" == cfg.uc
            || (splitOnSep cfg.sep (stripNl l)).getD cfg.c2ind "" == cfg.uc) with
        | false => intro _; rfl
        | true => intro h; exact absurd rfl h
      have hsingU : [splitOnSep cfg.sep (stripNl l)].filter
          (fun cols => isUnmCols cfg cols) = [] := by simp [hu']
      have hsingM : [splitOnSep cfg.sep (stripNl l)].filter
          (fun cols => !isUnmCols cfg cols)
          = [splitOnSep cfg.sep (stripNl l)] := by simp [hu']
      rw [if_neg hu]
      cases hp1 : pyInt ((splitOnSep cfg.sep (stripNl l)).getD cfg.p1ind "") with
      | none => left; rfl
      | some v1 =>
          cases hp2 : pyInt
              ((splitOnSep cfg.sep (stripNl l)).getD cfg.p2ind "") with
          | none => left; rfl
          | some v2 =>
              right
              refine ⟨⟨h0.herr, ?_, ?_, ?_, ?_⟩, ?_⟩
              · show (st.colsBuf ++ [splitOnSep cfg.sep (stripNl l)]).length
                  = (st.lineBuf ++ [stripNl l]).length
                simp [h0.hcb]
              · show ∀ cols ∈ st.colsBuf ++ [splitOnSep cfg.sep (stripNl l)],
                  isUnmCols cfg cols = false
                intro cols hc
                rcases List.mem_append.mp hc with h | h
                · exact h0.hmappedBuf cols h
                · rw [List.mem_singleton.mp h]
                  exact hu'
              · show st.stats.filter (fun sc => isUnmStat cfg sc) = _
                rw [hpr, List.filter_append, hsingU, List.append_nil]
                exact h0.hstatU
              · obtain ⟨log, h1, h2, h3⟩ := h0.hlog
                refine ⟨log, h1, ?_, h3⟩
                show log.map Prod.fst
                    ++ (st.colsBuf ++ [splitOnSep cfg.sep (stripNl l)]) = _
                rw [hpr, List.filter_append, hsingM, ← List.append_assoc, h2]
              · show (st.lineBuf ++ [stripNl l]).length
                  = d.pend st.det + (st.bc1
                    ++ [(fetchadd ((splitOnSep cfg.sep (stripNl l)).getD
                      cfg.c1ind "") st.chromDict).1]).length
                unfold InvP at hP
                simp only [List.length_append, List.length_cons,
                  List.length_nil]
                omega

/-- One read-loop iteration either carries an exception or preserves the
stats invariant (including through a mid-stream buffer flush). -/
theorem step_inv {σ : Type} (cfg : Cfg) (d : Det σ)
    (hstat : cfg.outStat = true)
    (hpush : ∀ s b, (d.push s b).2.length + d.pend (d.push s b).1
      = d.pend s + b.length)
    (hfin : ∀ s, (d.fin s).length = d.pend s)
    (st : St σ) (processed : List String) (l : String)
    (h0 : Inv0 cfg d st processed) (hP : InvP d st) :
    (step cfg d st l).err.isSome = true ∨
      (Inv0 cfg d (step cfg d st l) (processed ++ [l]) ∧
        InvP d (step cfg d st l)) := by
  unfold step
  have he : ¬(st.err.isSome = true) := by rw [h0.herr]; simp
  rw [if_neg he]
  by_cases hemp : (stripNl l).toList.isEmpty = true
  · rw [if_pos hemp]
    right
    have hpr : parsedRecs cfg (processed ++ [l]) = parsedRecs cfg processed := by
      rw [parsedRecs_append_one, if_pos hemp, List.append_nil]
    refine ⟨⟨h0.herr, h0.hcb, h0.hmappedBuf, ?_, ?_⟩, hP⟩
    · rw [hpr]
      exact h0.hstatU
    · obtain ⟨log, h1, h2, h3⟩ := h0.hlog
      exact ⟨log, h1, by rw [hpr]; exact h2, h3⟩
  · rw [if_neg hemp]
    have hne : (stripNl l).toList.isEmpty = false := by
      revert hemp
      cases (stripNl l).toList.isEmpty with
      | false => intro _; rfl
      | true => intro h; exact absurd rfl h
    rcases processLine_inv cfg d hstat st processed l h0 hP hne with hl | ⟨hi0, hiP⟩
    · rw [if_pos hl]
      left
      exact hl
    · have hpe : ¬((processLine cfg st (stripNl l)).err.isSome = true) := by
        rw [hi0.herr]
        simp
      rw [if_neg hpe]
      by_cases hfl : ((processLine cfg st (stripNl l)).bc1.length
          == cfg.maxLen) = true
      · rw [if_pos hfl]
        right
        have hfs := flush_spec cfg d hstat hpush hfin false
          (processLine cfg st (stripNl l)) (processed ++ [l]) hi0 hiP
        exact ⟨hfs.1, hfs.2.1 rfl⟩
      · rw [if_neg hfl]
        right
        exact ⟨hi0, hiP⟩

/-- The read loop either carries an exception or maintains the stats
invariant over the whole processed prefix. -/
theorem partialRun_inv {σ : Type} (cfg : Cfg) (d : Det σ)
    (hstat : cfg.outStat = true) (hpend0 : d.pend d.init = 0)
    (hpush : ∀ s b, (d.push s b).2.length + d.pend (d.push s b).1
      = d.pend s + b.length)
    (hfin : ∀ s, (d.fin s).length = d.pend s)
    (lines : List String) :
    (partialRun cfg d lines).err.isSome = true ∨
      (Inv0 cfg d (partialRun cfg d lines) lines ∧
        InvP d (partialRun cfg d lines)) := by
  induction lines using List.reverseRecOn with
  | nil =>
      right
      refine ⟨⟨rfl, rfl, ?_, rfl, ⟨[], rfl, rfl, rfl⟩⟩, ?_⟩
      · intro cols hc
        exact absurd hc (List.not_mem_nil cols)
      · show (0 : Nat) = d.pend d.init + 0
        rw [hpend0]
  | append_singleton t l ih =>
      rw [partialRun_append, List.foldl_cons, List.foldl_nil]
      rcases ih with hl | ⟨h0, hP⟩
      · left
        rw [step_of_err cfg d _ l hl]
        exact hl
      · exact step_inv cfg d hstat hpush hfin (partialRun cfg d t) t l h0 hP

theorem length_filter_not_aux {α : Type} (p : α → Bool) :
    ∀ L : List α,
      (L.filter p).length + (L.filter (fun x => !p x)).length = L.length := by
  intro L
  induction L with
  | nil => rfl
  | cons a t ih =>
      cases h : p a with
      | true =>
          simp [List.filter_cons, h]
          omega
      | false =>
          simp [List.filter_cons, h]
          omega

theorem zip_fst_snd_aux {α β : Type} : ∀ (l : List (α × β)),
    (l.map Prod.fst).zip (l.map Prod.snd) = l := by
  intro l
  induction l with
  | nil => rfl
  | cons a t ih => simp [ih]

/-- Amended C7: on a completed run with stats requested, `add_pair` is
called exactly once per well-formed input record; an unmapped record is
reported at read time with its own pair type, and a mapped record at its
classification flush with tag "DD" exactly when the detector classified
it duplicate (`resLog` is the concatenation of the classification arrays
the detector returned from `push`/`finish`, in order, and the k-th
mapped record's call carries "DD" iff the k-th returned classification
is true), else its own pair type.  Unmapped calls appear in input order
among themselves, and mapped calls in input order among themselves, but
the two interleavings differ from the input order (an unmapped record's
call can precede calls of earlier mapped records still buffered). -/
theorem C7_amended {σ : Type} (cfg : Cfg) (d : Det σ) (lines : List String)
    (hstat : cfg.outStat = true) (hpend0 : d.pend d.init = 0)
    (hpush : ∀ s b, (d.push s b).2.length + d.pend (d.push s b).1
      = d.pend s + b.length)
    (hfin : ∀ s, (d.fin s).length = d.pend s)
    (herr : (run cfg d lines).err = none) :
    (run cfg d lines).stats.length = (parsedRecs cfg lines).length ∧
      (run cfg d lines).stats.filter (fun sc => isUnmStat cfg sc)
        = ((parsedRecs cfg lines).filter (fun cols => isUnmCols cfg cols)).map
            (fun cols => colsStat cfg cols (cols.getD COL_PTYPE "")) ∧
      (run cfg d lines).resLog.length = ((parsedRecs cfg lines).filter
        (fun cols => !isUnmCols cfg cols)).length ∧
      (run cfg d lines).stats.filter (fun sc => !isUnmStat cfg sc)
        = (((parsedRecs cfg lines).filter
            (fun cols => !isUnmCols cfg cols)).zip (run cfg d lines).resLog).map
              (fun cf => colsStat cfg cf.1
                (if cf.2 then "DD" else cf.1.getD COL_PTYPE "")) := by
  rcases partialRun_inv cfg d hstat hpend0 hpush hfin lines with hl | ⟨h0, hP⟩
  · exfalso
    have hfe := finalize_of_err cfg d (partialRun cfg d lines) hl
    have hsm : (run cfg d lines).err.isSome = true := by
      show (finalize cfg d (partialRun cfg d lines)).err.isSome = true
      rw [hfe]
      exact hl
    rw [herr] at hsm
    exact absurd hsm (by simp)
  · obtain ⟨hI, _, hbufs⟩ := flush_spec cfg d hstat hpush hfin true
      (partialRun cfg d lines) lines h0 hP
    obtain ⟨hlb, hcb2⟩ := hbufs rfl
    have hrun : run cfg d lines
        = flush cfg d true (partialRun cfg d lines) := by
      show finalize cfg d (partialRun cfg d lines) = _
      unfold finalize
      rw [if_neg (by rw [h0.herr]; simp), if_pos (by rw [hlb]; rfl)]
    obtain ⟨log, h1, h2, h3⟩ := hI.hlog
    rw [hcb2, List.append_nil] at h2
    have hstatU := hI.hstatU
    refine ⟨?_, ?_, ?_, ?_⟩
    · have hs : ((flush cfg d true (partialRun cfg d lines)).stats.filter
          (fun sc => isUnmStat cfg sc)).length
          + ((flush cfg d true (partialRun cfg d lines)).stats.filter
            (fun sc => !isUnmStat cfg sc)).length
          = (flush cfg d true (partialRun cfg d lines)).stats.length :=
        length_filter_not_aux _ _
      have hc : ((parsedRecs cfg lines).filter
          (fun cols => isUnmCols cfg cols)).length
          + ((parsedRecs cfg lines).filter
            (fun cols => !isUnmCols cfg cols)).length
          = (parsedRecs cfg lines).length :=
        length_filter_not_aux _ _
      have e1 : ((flush cfg d true (partialRun cfg d lines)).stats.filter
          (fun sc => isUnmStat cfg sc)).length
          = ((parsedRecs cfg lines).filter
            (fun cols => isUnmCols cfg cols)).length := by
        rw [hstatU, List.length_map]
      have e2 : ((flush cfg d true (partialRun cfg d lines)).stats.filter
          (fun sc => !isUnmStat cfg sc)).length
          = ((parsedRecs cfg lines).filter
            (fun cols => !isUnmCols cfg cols)).length := by
        rw [h1, List.length_map, ← h2, List.length_map]
      rw [hrun]
      omega
    · rw [hrun]
      exact hstatU
    · rw [hrun, ← h3, List.length_map, ← h2, List.length_map]
    · rw [hrun, h1, ← h2, ← h3, zip_fst_snd_aux]

/-- Witness input for the amended C7: two mapped records 1 apart (the
second a duplicate of the first under max metric r = 3) and one unmapped
record. -/
def c7wlines : List String :=
  ["r1\tchr1\t100\tchr2\t200\t+\t+\tUU",
   "r2\tchr1\t101\tchr2\t201\t+\t+\tUU",
   "r3\t!\t0\tchr2\t0\t+\t+\tNU"]

/-- Witness for the amended C7 at a concrete input holding a duplicate:
the detector returns [false, true] and the stat tags are NU (unmapped,
at read), UU (unique r1) and DD (duplicate r2). -/
theorem C7_amended_witness :
    ((run c7cfg (onlineDD Method.max 3) c7wlines).err = none ∧
      (run c7cfg (onlineDD Method.max 3) c7wlines).resLog = [false, true] ∧
      (run c7cfg (onlineDD Method.max 3) c7wlines).stats.map (fun sc => sc.tag)
        = ["NU", "UU", "DD"]) ∧
      ((run c7cfg (onlineDD Method.max 3) c7wlines).stats.length
          = (parsedRecs c7cfg c7wlines).length ∧
        (run c7cfg (onlineDD Method.max 3) c7wlines).stats.filter
            (fun sc => isUnmStat c7cfg sc)
          = ((parsedRecs c7cfg c7wlines).filter
              (fun cols => isUnmCols c7cfg cols)).map
                (fun cols => colsStat c7cfg cols (cols.getD COL_PTYPE "")) ∧
        (run c7cfg (onlineDD Method.max 3) c7wlines).resLog.length
          = ((parsedRecs c7cfg c7wlines).filter
            (fun cols => !isUnmCols c7cfg cols)).length ∧
        (run c7cfg (onlineDD Method.max 3) c7wlines).stats.filter
            (fun sc => !isUnmStat c7cfg sc)
          = (((parsedRecs c7cfg c7wlines).filter
              (fun cols => !isUnmCols c7cfg cols)).zip
                (run c7cfg (onlineDD Method.max 3) c7wlines).resLog).map
                  (fun cf => colsStat c7cfg cf.1
                    (if cf.2 then "DD" else cf.1.getD COL_PTYPE ""))) :=
  ⟨⟨by decide, by decide, by decide⟩,
    C7_amended c7cfg (onlineDD Method.max 3) c7wlines (by decide)
      (odPend_init Method.max 3) (odPush_conservation Method.max 3)
      (odFin_conservation Method.max 3) (by decide)⟩

end CY

end Pairtools
